import Mathlib

/-!
LowLatencyGameDetection: the Oboe mixer engine

A shallow embedding of `app/src/main/cpp/oboe-mixer.cpp`.

* Samples (`float` in the source) are values of an arbitrary type `α` carrying
  `+`, `*` and decimal literals; `std::tanh` is a parameter `tanh : α → α`.
  The definitions are computable for any such type and are reasoned about on
  `ℝ` (with `Real.tanh`).
* `int` fields are `Int`.  The only arithmetic on them is `mBgmIndex + 1` and
  `++mClickIndex`, both executed right after a successful in-bounds table read,
  so the operands are below `48000`, resp. `2400`, and 32-bit overflow cannot
  occur.  The `int32_t` product `burst * 2` of `start()` is reduced to the
  32-bit range (`wrapInt32`).
* What the platform does during `start()` (the results of `openStream` and
  `requestStart`, the stream handed out) is a parameter, `Platform`; `std::sin`,
  `std::exp`, `M_PI` and the noise drawn for the bgm table are parameters too.
* A table read outside the array (`mBgm[i]`, `mClick[i]`) is undefined
  behaviour in the source; here it makes the callback return `none`.
* The output buffer `float* out` is a function `Nat → α` (the memory cell at
  each offset); `nullptr` is `none`.
-/

namespace OboeMixer

/-! ## Configuration constants -/

/-- `constexpr int kSampleRate = 48000;` -/
abbrev kSampleRate : Nat := 48000

/-- `constexpr int kBgmCycle = kSampleRate;` -/
abbrev kBgmCycle : Nat := kSampleRate

/-- `constexpr float kBgmAmp = 0.005f;` -/
def kBgmAmp {α : Type} [OfScientific α] : α := 0.005

/-- `constexpr float kClickAmp = 0.9f;` -/
def kClickAmp {α : Type} [OfScientific α] : α := 0.9

/-- `constexpr int kClickDurMs = 50;` -/
abbrev kClickDurMs : Nat := 50

/-- `constexpr int kClickLen = kSampleRate * kClickDurMs / 1000;` -/
abbrev kClickLen : Nat := kSampleRate * kClickDurMs / 1000

/-! ## The Oboe types the engine uses -/

/-- The stream states of `oboe::StreamState`. -/
inductive StreamState where
  | Uninitialized
  | Unknown
  | Open
  | Starting
  | Started
  | Pausing
  | Paused
  | Flushing
  | Flushed
  | Stopping
  | Stopped
  | Closing
  | Closed
  | Disconnected
  deriving DecidableEq, Repr

/-- The two values of `oboe::DataCallbackResult`. -/
inductive DataCallbackResult where
  | Continue
  | Stop
  deriving DecidableEq, Repr

/-- What the engine observes of an `oboe::AudioStream`: its state, its burst
size and the buffer size last requested with `setBufferSizeInFrames`. -/
structure AudioStream where
  state : StreamState
  framesPerBurst : Int
  bufferSizeInFrames : Int
  deriving DecidableEq, Repr

/-! ## The engine -/

/-- The data members of `class MixerEngine` (the random generator, used only
while the bgm table is filled, is left out). -/
structure MixerEngine (α : Type) where
  mStream : Option AudioStream
  mBgm : Fin kBgmCycle → α
  mClick : Fin kClickLen → α
  mBgmOn : Bool
  mBgmIndex : Int
  mClickIndex : Int
  mClickActive : Bool

/-- The member initialisers of `MixerEngine`: no stream, bgm on, both cursors
at `0`, click inactive; the two tables are the ones the constructor fills. -/
def MixerEngine.init {α : Type} (bgm : Fin kBgmCycle → α) (click : Fin kClickLen → α) :
    MixerEngine α :=
  { mStream := none, mBgm := bgm, mClick := click, mBgmOn := true,
    mBgmIndex := 0, mClickIndex := 0, mClickActive := false }

/-- C array indexing `tbl[idx]` with an `int` index: `none` outside the array. -/
def tableRead {α : Type} {n : Nat} (tbl : Fin n → α) (idx : Int) : Option α :=
  if h : 0 ≤ idx ∧ idx < (n : Int) then
    some (tbl ⟨idx.toNat, by omega⟩)
  else none

/-- `void setBgmOn(bool on) { mBgmOn = on; }` -/
def MixerEngine.setBgmOn {α : Type} (e : MixerEngine α) (bgmOn : Bool) : MixerEngine α :=
  { e with mBgmOn := bgmOn }

/-- `bool isStreamHealthy() const` -/
def MixerEngine.isStreamHealthy {α : Type} (e : MixerEngine α) : Bool :=
  match e.mStream with
  | none => false
  | some s =>
    s.state == StreamState.Open ||
    s.state == StreamState.Starting ||
    s.state == StreamState.Started

/-- The bgm part of one loop iteration (source lines 109-112): returns the
engine with the advanced cursor and the accumulated sample. -/
def mixBgm {α : Type} [Add α] [Mul α] [OfScientific α]
    (e : MixerEngine α) (s : α) : Option (MixerEngine α × α) :=
  if e.mBgmOn then
    match tableRead e.mBgm e.mBgmIndex with
    | none => none
    | some b =>
      some ({ e with mBgmIndex := Int.tmod (e.mBgmIndex + 1) (kBgmCycle : Int) },
            s + b * kBgmAmp)
  else some (e, s)

/-- The click part of one loop iteration (source lines 114-123). -/
def mixClick {α : Type} [Add α] [Mul α] [OfScientific α]
    (e : MixerEngine α) (s : α) : Option (MixerEngine α × α) :=
  if e.mClickActive then
    if e.mClickIndex < (kClickLen : Int) then
      match tableRead e.mClick e.mClickIndex with
      | none => none
      | some c =>
        let idx := e.mClickIndex + 1
        some ({ e with mClickIndex := idx,
                       mClickActive := if idx ≥ (kClickLen : Int) then false else true },
              s + c * kClickAmp)
    else some ({ e with mClickActive := false }, s)
  else some (e, s)

/-- One iteration of the sample loop up to the value of `s` (lines 107-123). -/
def mixFrame {α : Type} [Add α] [Mul α] [OfScientific α]
    (e : MixerEngine α) : Option (MixerEngine α × α) :=
  match mixBgm e (0.0 : α) with
  | none => none
  | some (e1, s1) => mixClick e1 s1

/-- The store `out[i] = v`. -/
def writeSample {α : Type} (out : Nat → α) (i : Nat) (v : α) : Nat → α :=
  fun j => if j = i then v else out j

/-- The loop `for (int i = 0; i < numFrames; ++i)`: `k` iterations are left and
the loop variable is `i`. -/
def mixLoop {α : Type} [Add α] [Mul α] [OfScientific α] (tanh : α → α) :
    Nat → Nat → MixerEngine α → (Nat → α) → Option (MixerEngine α × (Nat → α))
  | 0, _, e, out => some (e, out)
  | k + 1, i, e, out =>
    match mixFrame e with
    | none => none
    | some (e1, s) => mixLoop tanh k (i + 1) e1 (writeSample out i (tanh (s * 0.8)))

/-- What one call of `onAudioReady` leaves behind: the returned value, the
engine, the global `gClickPending` and the output buffer. -/
structure CallbackOutcome (α : Type) where
  result : DataCallbackResult
  engine : MixerEngine α
  pending : Bool
  audioData : Option (Nat → α)

/-- `DataCallbackResult onAudioReady(AudioStream *stream, void *audioData,
int32_t numFrames)`, with the global `gClickPending` passed as `pending`. -/
def MixerEngine.onAudioReady {α : Type} [Add α] [Mul α] [OfScientific α] (tanh : α → α)
    (e : MixerEngine α) (pending : Bool) (stream : AudioStream)
    (audioData : Option (Nat → α)) (numFrames : Int) : Option (CallbackOutcome α) :=
  match audioData with
  | none => some ⟨DataCallbackResult.Continue, e, pending, audioData⟩
  | some out =>
    if numFrames ≤ 0 then
      some ⟨DataCallbackResult.Continue, e, pending, audioData⟩
    else if stream.state = StreamState.Disconnected then
      some ⟨DataCallbackResult.Stop, { e with mStream := none }, pending, audioData⟩
    else
      let e0 := if pending then { e with mClickIndex := 0, mClickActive := true } else e
      match mixLoop tanh numFrames.toNat 0 e0 out with
      | none => none
      | some (e1, out1) => some ⟨DataCallbackResult.Continue, e1, false, some out1⟩

/-- The values of `oboe::Result` the engine tells apart: `OK` and the error
codes. -/
inductive Result where
  | OK
  | Error (code : Int)
  deriving DecidableEq, Repr

/-- What the platform answers during one call of `start()`: the result of
`openStream`, the stream it hands out when that result is `OK`, the result of
`requestStart` and the state the stream is in afterwards. -/
structure Platform where
  openResult : Result
  stream : AudioStream
  startResult : Result
  startState : StreamState
  deriving DecidableEq, Repr

/-- A value of `int32_t` arithmetic, reduced to the 32-bit two's complement
range. -/
def wrapInt32 (x : Int) : Int :=
  (x + 2147483648) % 4294967296 - 2147483648

/-- `bool start()`: when `openStream` fails the call returns false at once; on
success `mStream` holds the opened stream, the buffer size is set to
`burst * 2` (an `int32_t` product) and `requestStart` decides the returned
value. `setRealTimePriority` acts on the calling thread only and leaves the
engine as it is. -/
def MixerEngine.start {α : Type} (pf : Platform) (e : MixerEngine α) : Bool × MixerEngine α :=
  if pf.openResult ≠ Result.OK then
    (false, e)
  else
    let burst := pf.stream.framesPerBurst
    let sized := { pf.stream with bufferSizeInFrames := wrapInt32 (burst * 2) }
    (decide (pf.startResult = Result.OK),
     { e with mStream := some { sized with state := pf.startState } })

/-- `void stop()`: when a stream is held it is stopped, closed and released. -/
def MixerEngine.stop {α : Type} (e : MixerEngine α) : MixerEngine α :=
  match e.mStream with
  | none => e
  | some _ => { e with mStream := none }

/-- `void generateBgm()`: entry `i` is `sin(2π·80·i/kSampleRate) + 0.3·noise`,
where `noise i` is the `i`-th draw `mDis(mGen)`. -/
def generateBgm {α : Type} [Add α] [Mul α] [Div α] [IntCast α] [OfScientific α]
    (sin : α → α) (pi : α) (noise : Nat → α) : Fin kBgmCycle → α :=
  fun i =>
    let sine := sin (2.0 * pi * 80.0 * (((i : Nat) : Int) : α) / (((kSampleRate : Nat) : Int) : α))
    sine + 0.3 * noise i

/-- The envelope `float env = std::exp(-i / 200.0f)` of `generateClick`. -/
def clickEnvelope {α : Type} [Div α] [IntCast α] [OfScientific α]
    (exp : α → α) (i : Int) : α :=
  exp (((-i : Int) : α) / 200.0)

/-- `void generateClick()`: entry `i` is `sin(2π·2000·i/kSampleRate) * env`. -/
def generateClick {α : Type} [Mul α] [Div α] [IntCast α] [OfScientific α]
    (sin exp : α → α) (pi : α) : Fin kClickLen → α :=
  fun i =>
    let env := clickEnvelope exp ((i : Nat) : Int)
    sin (2.0 * pi * 2000.0 * (((i : Nat) : Int) : α) / (((kSampleRate : Nat) : Int) : α)) * env

/-- The constructor `MixerEngine()`: both tables are generated, the other
members take their initial values. -/
def MixerEngine.construct {α : Type} [Add α] [Mul α] [Div α] [IntCast α] [OfScientific α]
    (sin exp : α → α) (pi : α) (noise : Nat → α) : MixerEngine α :=
  MixerEngine.init (generateBgm sin pi noise) (generateClick sin exp pi)

/-! ## The JNI entry points and the two globals -/

/-- The two globals `gClickPending` and `gEngine`. -/
structure Process (α : Type) where
  gClickPending : Bool
  gEngine : Option (MixerEngine α)

/-- `nativeStart`: refused when `gEngine` is set; otherwise a new engine is
constructed, stored in `gEngine` and started. -/
def nativeStart {α : Type} [Add α] [Mul α] [Div α] [IntCast α] [OfScientific α]
    (sin exp : α → α) (pi : α) (noise : Nat → α) (pf : Platform) (g : Process α) :
    Bool × Process α :=
  match g.gEngine with
  | some _ => (false, g)
  | none =>
    let r := (MixerEngine.construct sin exp pi noise).start pf
    (r.1, { g with gEngine := some r.2 })

/-- `nativeStop`: `if (gEngine) { gEngine->stop(); gEngine.reset(); }` -/
def nativeStop {α : Type} (g : Process α) : Process α :=
  match g.gEngine with
  | none => g
  | some e =>
    let _stopped := e.stop
    { g with gEngine := none }

/-- `nativePlayClick`: `gClickPending.store(true)`. -/
def nativePlayClick {α : Type} (g : Process α) : Process α :=
  { g with gClickPending := true }

/-- `nativeSetBgmOn`: `if (gEngine) gEngine->setBgmOn(on);` -/
def nativeSetBgmOn {α : Type} (g : Process α) (bgmOn : Bool) : Process α :=
  match g.gEngine with
  | none => g
  | some e => { g with gEngine := some (e.setBgmOn bgmOn) }

/-- `nativeIsStreamHealthy`: `gEngine ? gEngine->isStreamHealthy() : JNI_FALSE`. -/
def nativeIsStreamHealthy {α : Type} (g : Process α) : Bool :=
  match g.gEngine with
  | none => false
  | some e => e.isStreamHealthy

/-! ## Specification-side definitions -/

/-- The mixer-state predicate: the bgm cursor is inside the bgm table and an
active click has its cursor inside the click table. -/
def Inv {α : Type} (e : MixerEngine α) : Prop :=
  (0 ≤ e.mBgmIndex ∧ e.mBgmIndex < (kBgmCycle : Int)) ∧
  (e.mClickActive = true → 0 ≤ e.mClickIndex ∧ e.mClickIndex < (kClickLen : Int))

instance instDecidableInv {α : Type} (e : MixerEngine α) : Decidable (Inv e) :=
  inferInstanceAs (Decidable
    ((0 ≤ e.mBgmIndex ∧ e.mBgmIndex < (kBgmCycle : Int)) ∧
     (e.mClickActive = true → 0 ≤ e.mClickIndex ∧ e.mClickIndex < (kClickLen : Int))))

/-- The mixer state reached from `e` after `n` samples of one loop, in closed
form: the bgm cursor has advanced `n` places round the table when bgm is on,
an active click has advanced `n` places or stopped at the end of its table. -/
def advance {α : Type} (e : MixerEngine α) (n : Nat) : MixerEngine α :=
  { e with
    mBgmIndex := if e.mBgmOn then (e.mBgmIndex + (n : Int)) % (kBgmCycle : Int) else e.mBgmIndex
    mClickIndex :=
      if e.mClickActive then min (e.mClickIndex + (n : Int)) (kClickLen : Int) else e.mClickIndex
    mClickActive := e.mClickActive && decide (e.mClickIndex + (n : Int) < (kClickLen : Int)) }

/-- The engine as it is when the sample loop starts: a pending trigger has
put the click at `(0, active)`. -/
def consumeTrigger {α : Type} (e : MixerEngine α) (pending : Bool) : MixerEngine α :=
  if pending then { e with mClickIndex := 0, mClickActive := true } else e

/-- The bgm term of a sample in mixer state `e`: `bgmTable[bgmCursor] * 0.005`
when bgm is enabled, else `0`. -/
def bgmTerm {α : Type} [Zero α] [Mul α] [OfScientific α] (e : MixerEngine α) : Option α :=
  if e.mBgmOn then (tableRead e.mBgm e.mBgmIndex).map (fun b => b * 0.005) else some 0

/-- The click term of a sample in mixer state `e`:
`clickTable[clickCursor] * 0.9` when the click is active, else `0`. -/
def clickTerm {α : Type} [Zero α] [Mul α] [OfScientific α] (e : MixerEngine α) : Option α :=
  if e.mClickActive then (tableRead e.mClick e.mClickIndex).map (fun c => c * 0.9) else some 0

/-- A valid callback is one with a positive frame count, a buffer, and a
stream that is not disconnected. -/
def ValidCallback {α : Type} (stream : AudioStream) (audioData : Option (Nat → α))
    (numFrames : Int) : Prop :=
  0 < numFrames ∧ audioData.isSome = true ∧ stream.state ≠ StreamState.Disconnected

instance instDecidableValidCallback {α : Type} (stream : AudioStream)
    (audioData : Option (Nat → α)) (numFrames : Int) :
    Decidable (ValidCallback stream audioData numFrames) :=
  inferInstanceAs (Decidable
    (0 < numFrames ∧ audioData.isSome = true ∧ stream.state ≠ StreamState.Disconnected))

/-! ## Runs of the engine

The platform calls `onAudioReady` on the running engine, and the host calls
the JNI entry points, one after the other. -/

/-- What can happen to a running engine: a callback from the platform,
`nativePlayClick` or `nativeSetBgmOn` from the host. -/
inductive Event (α : Type) where
  | audioReady (stream : AudioStream) (audioData : Option (Nat → α)) (numFrames : Int)
  | playClick
  | setBgmOn (bgmOn : Bool)

/-- One event on the process state; a callback reaches the engine in `gEngine`
and exchanges `gClickPending`. -/
def step {α : Type} [Add α] [Mul α] [OfScientific α] (tanh : α → α)
    (g : Process α) : Event α → Option (Process α)
  | Event.audioReady stream audioData numFrames =>
    match g.gEngine with
    | none => some g
    | some e =>
      match e.onAudioReady tanh g.gClickPending stream audioData numFrames with
      | none => none
      | some r => some { gClickPending := r.pending, gEngine := some r.engine }
  | Event.playClick => some (nativePlayClick g)
  | Event.setBgmOn bgmOn => some (nativeSetBgmOn g bgmOn)

/-- A sequence of events, in order. -/
def run {α : Type} [Add α] [Mul α] [OfScientific α] (tanh : α → α) :
    Process α → List (Event α) → Option (Process α)
  | g, [] => some g
  | g, ev :: evs =>
    match step tanh g ev with
    | none => none
    | some g1 => run tanh g1 evs

/-- The number of output frames an event produces: `numFrames` for a valid
callback, none otherwise. -/
def Event.frames {α : Type} : Event α → Nat
  | Event.audioReady stream audioData numFrames =>
    if ValidCallback stream audioData numFrames then numFrames.toNat else 0
  | Event.playClick => 0
  | Event.setBgmOn _ => 0

/-- The output frames produced by a sequence of events. -/
def framesProcessed {α : Type} : List (Event α) → Nat
  | [] => 0
  | ev :: evs => ev.frames + framesProcessed evs

/-- The number of frames processed since the start of the last callback that
consumed a trigger: `a` frames had been processed and the flag was `pending`
before the events. -/
def framesSinceTrigger {α : Type} : Bool → Nat → List (Event α) → Nat
  | _, a, [] => a
  | pending, a, Event.audioReady stream audioData numFrames :: evs =>
    if ValidCallback stream audioData numFrames then
      framesSinceTrigger false ((if pending then 0 else a) + numFrames.toNat) evs
    else framesSinceTrigger pending a evs
  | _, a, Event.playClick :: evs => framesSinceTrigger true a evs
  | pending, a, Event.setBgmOn _ :: evs => framesSinceTrigger pending a evs

/-- The event is a valid callback. -/
def Event.IsValid {α : Type} : Event α → Prop
  | Event.audioReady stream audioData numFrames => ValidCallback stream audioData numFrames
  | Event.playClick => False
  | Event.setBgmOn _ => False

/-- The samples an event leaves in its buffer: the cells `0 .. numFrames - 1`
after a valid callback, none otherwise. -/
def eventSamples {α : Type} [Add α] [Mul α] [OfScientific α] (tanh : α → α)
    (g : Process α) : Event α → List α
  | Event.audioReady stream audioData numFrames =>
    if ValidCallback stream audioData numFrames then
      match g.gEngine with
      | none => []
      | some e =>
        match e.onAudioReady tanh g.gClickPending stream audioData numFrames with
        | none => []
        | some r =>
          match r.audioData with
          | none => []
          | some out1 => (List.range numFrames.toNat).map out1
    else []
  | Event.playClick => []
  | Event.setBgmOn _ => []

/-- The output samples of a run, in the order they are produced. -/
def samplesOf {α : Type} [Add α] [Mul α] [OfScientific α] (tanh : α → α) :
    Process α → List (Event α) → Option (List α)
  | _, [] => some []
  | g, ev :: evs =>
    match step tanh g ev with
    | none => none
    | some g1 =>
      match samplesOf tanh g1 evs with
      | none => none
      | some rest => some (eventSamples tanh g ev ++ rest)

/-! ## Concrete inputs -/

/-- A freshly constructed engine with constant tables. -/
def sampleEngine : MixerEngine ℝ :=
  MixerEngine.init (fun _ => 1) (fun _ => 1)

/-- A started stream with a burst of 96 frames. -/
def startedStream : AudioStream :=
  { state := StreamState.Started, framesPerBurst := 96, bufferSizeInFrames := 192 }

/-- A platform that opens and starts the stream. -/
def okPlatform : Platform :=
  { openResult := Result.OK,
    stream := { state := StreamState.Open, framesPerBurst := 96, bufferSizeInFrames := 0 },
    startResult := Result.OK, startState := StreamState.Started }

/-- A platform that refuses to open the stream. -/
def refusedPlatform : Platform :=
  { openResult := Result.Error (-896),
    stream := { state := StreamState.Uninitialized, framesPerBurst := 0,
                bufferSizeInFrames := 0 },
    startResult := Result.OK, startState := StreamState.Uninitialized }

/-- A platform that opens the stream and then refuses to start it. -/
def stalledPlatform : Platform :=
  { openResult := Result.OK,
    stream := { state := StreamState.Open, framesPerBurst := 240, bufferSizeInFrames := 0 },
    startResult := Result.Error (-895), startState := StreamState.Open }

/-- A process in which no engine runs and no trigger is pending. -/
def idleProcess : Process ℝ :=
  { gClickPending := false, gEngine := none }

/-- A stream the platform reports as disconnected. -/
def lostStream : AudioStream :=
  { state := StreamState.Disconnected, framesPerBurst := 96, bufferSizeInFrames := 192 }

/-- An engine in mid-playback: bgm near the end of its table, click active. -/
def busyEngine : MixerEngine ℝ :=
  { mStream := some startedStream, mBgm := fun i => (i : ℝ), mClick := fun _ => 1000,
    mBgmOn := true, mBgmIndex := 47999, mClickIndex := 2398, mClickActive := true }

/-! ## The sample loop -/

theorem tableRead_isSome {α : Type} {n : Nat} (tbl : Fin n → α) (idx : Int)
    (h0 : 0 ≤ idx) (h1 : idx < (n : Int)) : ∃ x, tableRead tbl idx = some x := by
  unfold tableRead
  rw [dif_pos ⟨h0, h1⟩]
  exact ⟨_, rfl⟩

theorem inv_consumeTrigger {α : Type} (e : MixerEngine α) (p : Bool) (h : Inv e) :
    Inv (consumeTrigger e p) := by
  unfold consumeTrigger
  cases p
  · simpa using h
  · refine ⟨h.1, fun _ => ?_⟩
    simp

theorem kBgmCycle_cast : ((kBgmCycle : Nat) : Int) = 48000 := rfl

theorem kClickLen_cast : ((kClickLen : Nat) : Int) = 2400 := rfl

theorem inv_advance {α : Type} (e : MixerEngine α) (n : Nat) (h : Inv e) :
    Inv (advance e n) := by
  obtain ⟨⟨h0, h1⟩, hc⟩ := h
  simp only [kBgmCycle_cast, kClickLen_cast] at h0 h1 hc
  refine ⟨?_, ?_⟩
  · simp only [advance, kBgmCycle_cast]
    split
    · constructor <;> omega
    · exact ⟨h0, h1⟩
  · simp only [advance, Bool.and_eq_true, decide_eq_true_eq, kClickLen_cast]
    rintro ⟨ha, hlt⟩
    have := hc ha
    rw [if_pos ha]
    omega

theorem advance_zero {α : Type} (e : MixerEngine α) (h : Inv e) : advance e 0 = e := by
  obtain ⟨⟨h0, h1⟩, hc⟩ := h
  cases e with
  | mk st bgm clk bo bi ci ca =>
    simp only [advance, MixerEngine.mk.injEq, true_and, kBgmCycle_cast, kClickLen_cast]
    simp only [kBgmCycle_cast, kClickLen_cast] at h0 h1 hc
    refine ⟨?_, ?_, ?_⟩
    · split
      · omega
      · rfl
    · split
      · rename_i hca
        have := hc hca
        omega
      · rfl
    · cases ca
      · rfl
      · have := hc rfl
        simp
        omega

theorem advance_add {α : Type} (e : MixerEngine α) (a b : Nat) (h : Inv e) :
    advance (advance e a) b = advance e (a + b) := by
  obtain ⟨⟨h0, h1⟩, hc⟩ := h
  cases e with
  | mk st bgm clk bo bi ci ca =>
    simp only [advance, MixerEngine.mk.injEq, true_and, kBgmCycle_cast, kClickLen_cast]
    simp only [kBgmCycle_cast, kClickLen_cast] at h0 h1 hc
    refine ⟨?_, ?_, ?_⟩
    · cases bo
      · simp
      · simp only [if_true]
        push_cast
        omega
    · cases ca
      · simp
      · have := hc rfl
        simp only [Bool.true_and, decide_eq_true_eq, if_true]
        push_cast
        split <;> omega
    · cases ca
      · simp
      · have := hc rfl
        simp only [Bool.true_and, decide_eq_true_eq, if_true]
        push_cast
        by_cases hlt : ci + (a : Int) < 2400
        · simp only [hlt, decide_True, Bool.true_and, decide_eq_decide]
          constructor <;> intro _ <;> omega
        · simp only [hlt, decide_False, Bool.false_and]
          symm
          simp only [decide_eq_false_iff_not]
          omega

theorem mixFrame_fst {α : Type} [Add α] [Mul α] [OfScientific α]
    (e : MixerEngine α) (h : Inv e) : (mixFrame e).map Prod.fst = some (advance e 1) := by
  obtain ⟨⟨h0, h1⟩, hc⟩ := h
  cases e with
  | mk st bgm clk bo bi ci ca =>
    simp only at h0 h1 hc
    obtain ⟨b, hb⟩ := tableRead_isSome bgm bi h0 h1
    simp only [kBgmCycle_cast, kClickLen_cast] at h0 h1 hc
    cases bo <;> cases ca
    · simp only [mixFrame, mixBgm, mixClick, advance, Bool.false_eq_true, if_false,
        Bool.false_and, Option.map_some']
    · obtain ⟨hc0, hc1⟩ := hc rfl
      obtain ⟨c, hcr⟩ := tableRead_isSome clk ci hc0 (by simpa using hc1)
      simp only [mixFrame, mixBgm, mixClick, advance, Bool.false_eq_true, if_false, if_true,
        kClickLen_cast, hc1, hcr, Bool.true_and, Option.some.injEq, Option.map_some',
        MixerEngine.mk.injEq, true_and, and_true]
      refine ⟨?_, ?_⟩
      · push_cast
        omega
      · by_cases hlt : ci + 1 < 2400
        · have : ¬ (ci + 1 ≥ 2400) := by omega
          simp [hlt, this]
        · have : ci + 1 ≥ 2400 := by omega
          simp [hlt, this]
    · simp only [mixFrame, mixBgm, mixClick, advance, Bool.false_eq_true, if_false, if_true,
        hb, Bool.false_and, Option.some.injEq, Option.map_some', MixerEngine.mk.injEq,
        true_and, and_true, kBgmCycle_cast]
      rw [Int.tmod_eq_emod (by omega) (by omega)]
      push_cast
      rfl
    · obtain ⟨hc0, hc1⟩ := hc rfl
      obtain ⟨c, hcr⟩ := tableRead_isSome clk ci hc0 (by simpa using hc1)
      simp only [mixFrame, mixBgm, mixClick, advance, if_true,
        kClickLen_cast, kBgmCycle_cast, hb, hc1, hcr, Bool.true_and, Option.some.injEq,
        Option.map_some', MixerEngine.mk.injEq, true_and, and_true]
      refine ⟨?_, ?_, ?_⟩
      · rw [Int.tmod_eq_emod (by omega) (by omega)]
        push_cast
        rfl
      · push_cast
        omega
      · by_cases hlt : ci + 1 < 2400
        · have : ¬ (ci + 1 ≥ 2400) := by omega
          simp [hlt, this]
        · have : ci + 1 ≥ 2400 := by omega
          simp [hlt, this]

theorem mixFrame_advance {α : Type} [Add α] [Mul α] [OfScientific α]
    (e : MixerEngine α) (h : Inv e) : ∃ s, mixFrame e = some (advance e 1, s) := by
  have hf := mixFrame_fst e h
  cases hm : mixFrame e with
  | none => simp [hm] at hf
  | some r =>
    obtain ⟨e1, s⟩ := r
    simp only [hm, Option.map_some', Option.some.injEq] at hf
    exact ⟨s, by rw [hf]⟩

/-- The sample loop on a state satisfying `Inv`: it returns, the engine is
`advance e n`, the cells outside `[i, i + n)` are untouched and cell `i + k`
holds `tanh (s * 0.8)` for the sum `s` that `mixFrame` computes in the state
reached after `k` samples. -/
theorem mixLoop_spec {α : Type} [Add α] [Mul α] [OfScientific α] (tanh : α → α)
    (n : Nat) : ∀ (i : Nat) (e : MixerEngine α) (out : Nat → α), Inv e →
    ∃ out1, mixLoop tanh n i e out = some (advance e n, out1) ∧
      (∀ j, j < i ∨ i + n ≤ j → out1 j = out j) ∧
      (∀ k, k < n → ∃ s, mixFrame (advance e k) = some (advance e (k + 1), s) ∧
        out1 (i + k) = tanh (s * 0.8)) := by
  induction n with
  | zero =>
    intro i e out h
    refine ⟨out, ?_, fun _ _ => rfl, fun k hk => absurd hk (Nat.not_lt_zero k)⟩
    simp only [mixLoop, advance_zero e h]
  | succ n ih =>
    intro i e out h
    obtain ⟨s, hs⟩ := mixFrame_advance e h
    obtain ⟨out1, hrun, hframe, hval⟩ :=
      ih (i + 1) (advance e 1) (writeSample out i (tanh (s * 0.8))) (inv_advance e 1 h)
    refine ⟨out1, ?_, ?_, ?_⟩
    · simp only [mixLoop, hs, hrun, advance_add e 1 n h, Nat.add_comm 1 n]
    · intro j hj
      have hne : j ≠ i := by omega
      rw [hframe j (by omega)]
      simp only [writeSample, hne, if_false]
    · intro k hk
      cases k with
      | zero =>
        refine ⟨s, ?_, ?_⟩
        · simpa only [advance_zero e h] using hs
        · rw [Nat.add_zero, hframe i (Or.inl (Nat.lt_succ_self i))]
          simp only [writeSample, if_true]
      | succ k =>
        obtain ⟨s1, hs1, hv1⟩ := hval k (by omega)
        refine ⟨s1, ?_, ?_⟩
        · simpa only [advance_add e 1 _ h, Nat.add_comm 1, Nat.add_assoc] using hs1
        · have : i + (k + 1) = i + 1 + k := by omega
          rw [this]
          exact hv1

/-- A valid callback on a state satisfying `Inv` runs the sample loop on the
engine left by the trigger consumption. -/
theorem onAudioReady_valid {α : Type} [Add α] [Mul α] [OfScientific α] (tanh : α → α)
    (e : MixerEngine α) (pending : Bool) (stream : AudioStream) (out : Nat → α)
    (numFrames : Int) (hn : 0 < numFrames)
    (hs : stream.state ≠ StreamState.Disconnected) (h : Inv e) :
    ∃ out1, e.onAudioReady tanh pending stream (some out) numFrames =
        some ⟨DataCallbackResult.Continue,
          advance (consumeTrigger e pending) numFrames.toNat, false, some out1⟩ ∧
      mixLoop tanh numFrames.toNat 0 (consumeTrigger e pending) out =
        some (advance (consumeTrigger e pending) numFrames.toNat, out1) := by
  obtain ⟨out1, hrun, -, -⟩ :=
    mixLoop_spec tanh numFrames.toNat 0 (consumeTrigger e pending) out
      (inv_consumeTrigger e pending h)
  refine ⟨out1, ?_, hrun⟩
  have hn1 : ¬ numFrames ≤ 0 := by omega
  unfold consumeTrigger at hrun
  simp only [MixerEngine.onAudioReady, hn1, hs, if_false, hrun, consumeTrigger]

/-- Over the reals the sum that `mixFrame` computes is the bgm term plus the
click term. -/
theorem mixFrame_sum (e e1 : MixerEngine ℝ) (s : ℝ) (h : Inv e)
    (hm : mixFrame e = some (e1, s)) :
    ∃ b c, bgmTerm e = some b ∧ clickTerm e = some c ∧ s = b + c := by
  obtain ⟨⟨h0, h1⟩, hc⟩ := h
  cases e with
  | mk st bgm clk bo bi ci ca =>
    simp only at h0 h1 hc
    obtain ⟨b, hb⟩ := tableRead_isSome bgm bi h0 h1
    simp only [kBgmCycle_cast, kClickLen_cast] at h0 h1 hc
    cases bo <;> cases ca
    · simp only [mixFrame, mixBgm, mixClick, Bool.false_eq_true, if_false,
        Option.some.injEq, Prod.mk.injEq] at hm
      refine ⟨0, 0, by simp [bgmTerm], by simp [clickTerm], ?_⟩
      rw [← hm.2]
      norm_num
    · obtain ⟨hc0, hc1⟩ := hc rfl
      obtain ⟨c, hcr⟩ := tableRead_isSome clk ci hc0 (by simpa using hc1)
      simp only [mixFrame, mixBgm, mixClick, Bool.false_eq_true, if_false, if_true,
        kClickLen_cast, hc1, hcr, Option.some.injEq, Prod.mk.injEq] at hm
      refine ⟨0, c * 0.9, by simp [bgmTerm], by simp [clickTerm, hcr], ?_⟩
      rw [← hm.2, kClickAmp]
      norm_num
    · simp only [mixFrame, mixBgm, mixClick, Bool.false_eq_true, if_false, if_true, hb,
        Option.some.injEq, Prod.mk.injEq] at hm
      refine ⟨b * 0.005, 0, by simp [bgmTerm, hb], by simp [clickTerm], ?_⟩
      rw [← hm.2, kBgmAmp]
      norm_num
    · obtain ⟨hc0, hc1⟩ := hc rfl
      obtain ⟨c, hcr⟩ := tableRead_isSome clk ci hc0 (by simpa using hc1)
      simp only [mixFrame, mixBgm, mixClick, if_true, hb,
        kClickLen_cast, hc1, hcr, Option.some.injEq, Prod.mk.injEq] at hm
      refine ⟨b * 0.005, c * 0.9, by simp [bgmTerm, hb], by simp [clickTerm, hcr], ?_⟩
      rw [← hm.2, kBgmAmp, kClickAmp]
      norm_num

/-- The hyperbolic tangent takes its values strictly between `-1` and `1`. -/
theorem abs_tanh_lt_one (x : ℝ) : |Real.tanh x| < 1 := by
  have hc : 0 < Real.cosh x := Real.cosh_pos x
  have h1 : Real.sinh x < Real.cosh x := Real.sinh_lt_cosh x
  have h2 : -Real.cosh x < Real.sinh x := by
    have h := Real.sinh_lt_cosh (-x)
    rw [Real.sinh_neg, Real.cosh_neg] at h
    linarith
  rw [Real.tanh_eq_sinh_div_cosh, abs_lt]
  constructor
  · rw [lt_div_iff₀ hc]
    linarith
  · rw [div_lt_iff₀ hc]
    linarith

theorem inv_clear_stream {α : Type} (e : MixerEngine α) (h : Inv e) :
    Inv { e with mStream := none } := h

/-- Every call of `onAudioReady` on a state satisfying `Inv` returns, and the
engine it leaves satisfies `Inv`. -/
theorem onAudioReady_inv {α : Type} [Add α] [Mul α] [OfScientific α] (tanh : α → α)
    (e : MixerEngine α) (pending : Bool) (stream : AudioStream)
    (audioData : Option (Nat → α)) (numFrames : Int) (h : Inv e) :
    ∃ r, e.onAudioReady tanh pending stream audioData numFrames = some r ∧ Inv r.engine := by
  cases audioData with
  | none => exact ⟨_, rfl, h⟩
  | some out =>
    by_cases hn : numFrames ≤ 0
    · refine ⟨⟨DataCallbackResult.Continue, e, pending, some out⟩, ?_, h⟩
      simp only [MixerEngine.onAudioReady, hn, if_true]
    · by_cases hs : stream.state = StreamState.Disconnected
      · refine ⟨⟨DataCallbackResult.Stop, { e with mStream := none }, pending, some out⟩, ?_,
          inv_clear_stream e h⟩
        simp only [MixerEngine.onAudioReady, hn, hs, if_true, if_false]
      · obtain ⟨out1, hcall, -⟩ :=
          onAudioReady_valid tanh e pending stream out numFrames (by omega) hs h
        exact ⟨_, hcall, inv_advance _ _ (inv_consumeTrigger e pending h)⟩

/-! ## Runs -/

theorem step_valid {α : Type} [Add α] [Mul α] [OfScientific α] (tanh : α → α)
    (p : Bool) (e : MixerEngine α) (stream : AudioStream) (audioData : Option (Nat → α))
    (numFrames : Int) (hv : ValidCallback stream audioData numFrames) (h : Inv e) :
    step tanh ⟨p, some e⟩ (Event.audioReady stream audioData numFrames) =
      some ⟨false, some (advance (consumeTrigger e p) numFrames.toNat)⟩ := by
  obtain ⟨hn, hd, hs⟩ := hv
  cases audioData with
  | none => simp at hd
  | some out =>
    obtain ⟨out1, hcall, -⟩ := onAudioReady_valid tanh e p stream out numFrames hn hs h
    simp only [step, hcall]

theorem step_invalid {α : Type} [Add α] [Mul α] [OfScientific α] (tanh : α → α)
    (p : Bool) (e : MixerEngine α) (stream : AudioStream) (audioData : Option (Nat → α))
    (numFrames : Int) (hv : ¬ ValidCallback stream audioData numFrames) :
    ∃ e1, step tanh ⟨p, some e⟩ (Event.audioReady stream audioData numFrames) =
        some ⟨p, some e1⟩ ∧
      (Inv e → Inv e1) ∧ e1.mBgmOn = e.mBgmOn ∧ e1.mBgmIndex = e.mBgmIndex ∧
      e1.mClickIndex = e.mClickIndex ∧ e1.mClickActive = e.mClickActive ∧
      (e1.mStream = e.mStream ∨ e1.mStream = none) := by
  cases audioData with
  | none =>
    exact ⟨e, by simp only [step, MixerEngine.onAudioReady], id, rfl, rfl, rfl, rfl, Or.inl rfl⟩
  | some out =>
    by_cases hn : numFrames ≤ 0
    · refine ⟨e, ?_, id, rfl, rfl, rfl, rfl, Or.inl rfl⟩
      simp only [step, MixerEngine.onAudioReady, hn, if_true]
    · by_cases hs : stream.state = StreamState.Disconnected
      · refine ⟨{ e with mStream := none }, ?_, id, rfl, rfl, rfl, rfl, Or.inr rfl⟩
        simp only [step, MixerEngine.onAudioReady, hn, hs, if_true, if_false]
      · exact absurd ⟨by omega, rfl, hs⟩ hv

/-- The click state along a run: the click is active iff fewer than `2400`
frames were processed since the start of the last callback that consumed a
trigger, and its cursor is that number of frames, capped at `2400`. -/
theorem run_click {α : Type} [Add α] [Mul α] [OfScientific α] (tanh : α → α)
    (evs : List (Event α)) : ∀ (p : Bool) (e : MixerEngine α) (a : Nat), Inv e →
    (e.mClickActive = true ↔ a < 2400) → e.mClickIndex = ((min a 2400 : Nat) : Int) →
    ∃ p1 e1, run tanh ⟨p, some e⟩ evs = some ⟨p1, some e1⟩ ∧ Inv e1 ∧
      (e1.mClickActive = true ↔ framesSinceTrigger p a evs < 2400) ∧
      e1.mClickIndex = ((min (framesSinceTrigger p a evs) 2400 : Nat) : Int) := by
  induction evs with
  | nil =>
    intro p e a h ha hi
    exact ⟨p, e, rfl, h, ha, hi⟩
  | cons ev evs ih =>
    intro p e a h ha hi
    cases ev with
    | audioReady stream audioData numFrames =>
      by_cases hv : ValidCallback stream audioData numFrames
      · have hstep := step_valid tanh p e stream audioData numFrames hv h
        have hinv := inv_advance _ numFrames.toNat (inv_consumeTrigger e p h)
        obtain ⟨p1, e1, hrun, hinv1, hact, hidx⟩ :=
          ih false (advance (consumeTrigger e p) numFrames.toNat)
            ((if p then 0 else a) + numFrames.toNat) hinv
            (by
              cases p
              · simp only [consumeTrigger, advance, Bool.false_eq_true, if_false,
                  Bool.and_eq_true, decide_eq_true_eq, kClickLen_cast, ha, hi]
                omega
              · simp only [consumeTrigger, advance, if_true, Bool.true_and,
                  decide_eq_true_eq, kClickLen_cast]
                omega)
            (by
              cases p
              · by_cases hlt : a < 2400
                · simp only [consumeTrigger, advance, Bool.false_eq_true, if_false,
                    ha.mpr hlt, if_true, kClickLen_cast, hi]
                  omega
                · have hf : ¬ (e.mClickActive = true) := fun hc => hlt (ha.mp hc)
                  simp only [consumeTrigger, advance, Bool.false_eq_true, if_false, hf, hi]
                  omega
              · simp only [consumeTrigger, advance, if_true, kClickLen_cast]
                omega)
        refine ⟨p1, e1, ?_, hinv1, ?_, ?_⟩
        · simp only [run, hstep, hrun]
        · simpa only [framesSinceTrigger, hv, if_true] using hact
        · simpa only [framesSinceTrigger, hv, if_true] using hidx
      · obtain ⟨e0, hstep, hinv, -, -, hci, hca, -⟩ :=
          step_invalid tanh p e stream audioData numFrames hv
        obtain ⟨p1, e1, hrun, hinv1, hact, hidx⟩ :=
          ih p e0 a (hinv h) (by rw [hca]; exact ha) (by rw [hci]; exact hi)
        refine ⟨p1, e1, ?_, hinv1, ?_, ?_⟩
        · simp only [run, hstep, hrun]
        · simpa only [framesSinceTrigger, hv, if_false] using hact
        · simpa only [framesSinceTrigger, hv, if_false] using hidx
    | playClick =>
      obtain ⟨p1, e1, hrun, hinv1, hact, hidx⟩ := ih true e a h ha hi
      refine ⟨p1, e1, ?_, hinv1, ?_, ?_⟩
      · simpa only [run, step, nativePlayClick] using hrun
      · simpa only [framesSinceTrigger] using hact
      · simpa only [framesSinceTrigger] using hidx
    | setBgmOn bgmOn =>
      obtain ⟨p1, e1, hrun, hinv1, hact, hidx⟩ := ih p (e.setBgmOn bgmOn) a h ha hi
      refine ⟨p1, e1, ?_, hinv1, ?_, ?_⟩
      · simpa only [run, step, nativeSetBgmOn] using hrun
      · simpa only [framesSinceTrigger] using hact
      · simpa only [framesSinceTrigger] using hidx

/-- With no trigger pending and no `playClick` among the events, every frame
processed counts. -/
theorem framesSinceTrigger_noClick {α : Type} (evs : List (Event α)) :
    ∀ (a : Nat), (∀ ev ∈ evs, ev ≠ Event.playClick) →
      framesSinceTrigger false a evs = a + framesProcessed evs := by
  induction evs with
  | nil =>
    intro a _
    rfl
  | cons ev evs ih =>
    intro a hno
    have hrest : ∀ x ∈ evs, x ≠ Event.playClick :=
      fun x hx => hno x (List.mem_cons_of_mem ev hx)
    cases ev with
    | audioReady stream audioData numFrames =>
      by_cases hv : ValidCallback stream audioData numFrames
      · simp only [framesSinceTrigger, framesProcessed, Event.frames, hv, if_true,
          Bool.false_eq_true, if_false, ih _ hrest]
        omega
      · simp only [framesSinceTrigger, framesProcessed, Event.frames, hv, if_false,
          ih _ hrest]
        omega
    | playClick => exact absurd rfl (hno _ (List.mem_cons_self _ _))
    | setBgmOn bgmOn =>
      simp only [framesSinceTrigger, framesProcessed, Event.frames, ih _ hrest]
      omega

/-- The bgm cursor along a run with bgm enabled throughout: it has advanced
by the number of frames processed, round the table. -/
theorem run_bgm {α : Type} [Add α] [Mul α] [OfScientific α] (tanh : α → α)
    (evs : List (Event α)) : ∀ (p : Bool) (e : MixerEngine α), Inv e →
    e.mBgmOn = true → (∀ ev ∈ evs, ev ≠ Event.setBgmOn false) →
    ∃ p1 e1, run tanh ⟨p, some e⟩ evs = some ⟨p1, some e1⟩ ∧
      e1.mBgmIndex = (e.mBgmIndex + (framesProcessed evs : Int)) % 48000 := by
  induction evs with
  | nil =>
    intro p e h _ _
    refine ⟨p, e, rfl, ?_⟩
    obtain ⟨⟨h0, h1⟩, -⟩ := h
    simp only [kBgmCycle_cast] at h1
    simp only [framesProcessed]
    omega
  | cons ev evs ih =>
    intro p e h hon hev
    have hrest : ∀ x ∈ evs, x ≠ Event.setBgmOn false :=
      fun x hx => hev x (List.mem_cons_of_mem ev hx)
    cases ev with
    | audioReady stream audioData numFrames =>
      by_cases hv : ValidCallback stream audioData numFrames
      · have hstep := step_valid tanh p e stream audioData numFrames hv h
        have hinv := inv_advance _ numFrames.toNat (inv_consumeTrigger e p h)
        have hon1 : (advance (consumeTrigger e p) numFrames.toNat).mBgmOn = true := by
          cases p <;> simpa only [advance, consumeTrigger] using hon
        have hidx : (advance (consumeTrigger e p) numFrames.toNat).mBgmIndex =
            (e.mBgmIndex + (numFrames.toNat : Int)) % 48000 := by
          cases p <;>
            simp only [advance, consumeTrigger, hon, if_true, Bool.false_eq_true, if_false,
              kBgmCycle_cast]
        obtain ⟨p1, e1, hrun, hb⟩ := ih false _ hinv hon1 hrest
        refine ⟨p1, e1, ?_, ?_⟩
        · simp only [run, hstep, hrun]
        · rw [hb, hidx]
          simp only [framesProcessed, Event.frames, hv, if_true]
          push_cast
          omega
      · obtain ⟨e0, hstep, hinv, hbo, hbi, -, -, -⟩ :=
          step_invalid tanh p e stream audioData numFrames hv
        obtain ⟨p1, e1, hrun, hb⟩ := ih p e0 (hinv h) (by rw [hbo]; exact hon) hrest
        refine ⟨p1, e1, ?_, ?_⟩
        · simp only [run, hstep, hrun]
        · rw [hb, hbi]
          simp only [framesProcessed, Event.frames, hv, if_false]
          push_cast
          omega
    | playClick =>
      obtain ⟨p1, e1, hrun, hb⟩ := ih true e h hon hrest
      refine ⟨p1, e1, ?_, ?_⟩
      · simpa only [run, step, nativePlayClick] using hrun
      · rw [hb]
        simp only [framesProcessed, Event.frames]
        push_cast
        omega
    | setBgmOn bgmOn =>
      have hb1 : bgmOn = true := by
        cases bgmOn
        · exact absurd rfl (hev _ (List.mem_cons_self _ _))
        · rfl
      subst hb1
      obtain ⟨p1, e1, hrun, hb⟩ := ih p (e.setBgmOn true) h rfl hrest
      refine ⟨p1, e1, ?_, ?_⟩
      · simpa only [run, step, nativeSetBgmOn] using hrun
      · rw [hb]
        simp only [framesProcessed, Event.frames, MixerEngine.setBgmOn]
        push_cast
        omega

/-- One loop iteration never touches the stream handle. -/
theorem mixFrame_stream {α : Type} [Add α] [Mul α] [OfScientific α]
    (e e1 : MixerEngine α) (s : α) (hm : mixFrame e = some (e1, s)) :
    e1.mStream = e.mStream := by
  unfold mixFrame at hm
  cases hb : mixBgm e (0.0 : α) with
  | none => simp [hb] at hm
  | some r =>
    obtain ⟨e0, s0⟩ := r
    simp only [hb] at hm
    have h0 : e0.mStream = e.mStream := by
      unfold mixBgm at hb
      split at hb
      · split at hb
        · simp at hb
        · simp only [Option.some.injEq, Prod.mk.injEq] at hb
          rw [← hb.1]
      · simp only [Option.some.injEq, Prod.mk.injEq] at hb
        rw [← hb.1]
    rw [← h0]
    unfold mixClick at hm
    split at hm
    · split at hm
      · split at hm
        · simp at hm
        · simp only [Option.some.injEq, Prod.mk.injEq] at hm
          rw [← hm.1]
      · simp only [Option.some.injEq, Prod.mk.injEq] at hm
        rw [← hm.1]
    · simp only [Option.some.injEq, Prod.mk.injEq] at hm
      rw [← hm.1]

theorem mixLoop_stream {α : Type} [Add α] [Mul α] [OfScientific α] (tanh : α → α)
    (n : Nat) : ∀ (i : Nat) (e e1 : MixerEngine α) (out out1 : Nat → α),
    mixLoop tanh n i e out = some (e1, out1) → e1.mStream = e.mStream := by
  induction n with
  | zero =>
    intro i e e1 out out1 hm
    simp only [mixLoop, Option.some.injEq, Prod.mk.injEq] at hm
    rw [← hm.1]
  | succ n ih =>
    intro i e e1 out out1 hm
    unfold mixLoop at hm
    cases hf : mixFrame e with
    | none => simp [hf] at hm
    | some r =>
      obtain ⟨e0, s0⟩ := r
      simp only [hf] at hm
      rw [ih _ _ _ _ _ hm]
      exact mixFrame_stream e e0 s0 hf

/-- A callback never gives the engine a stream handle it did not have. -/
theorem onAudioReady_stream_none {α : Type} [Add α] [Mul α] [OfScientific α] (tanh : α → α)
    (e : MixerEngine α) (p : Bool) (stream : AudioStream) (audioData : Option (Nat → α))
    (numFrames : Int) (r : CallbackOutcome α) (hnone : e.mStream = none)
    (hr : e.onAudioReady tanh p stream audioData numFrames = some r) :
    r.engine.mStream = none := by
  unfold MixerEngine.onAudioReady at hr
  split at hr
  · simp only [Option.some.injEq] at hr
    rw [← hr]
    exact hnone
  · split at hr
    · simp only [Option.some.injEq] at hr
      rw [← hr]
      exact hnone
    · split at hr
      · simp only [Option.some.injEq] at hr
        rw [← hr]
      · simp only at hr
        split at hr
        · simp at hr
        · rename_i e1 out1 hloop
          simp only [Option.some.injEq] at hr
          rw [← hr]
          simp only
          rw [mixLoop_stream tanh _ _ _ _ _ _ hloop]
          split <;> exact hnone

/-- Once the engine has released its stream handle, no callback,
`nativePlayClick` or `nativeSetBgmOn` brings it back. -/
theorem run_stream_none {α : Type} [Add α] [Mul α] [OfScientific α] (tanh : α → α)
    (evs : List (Event α)) : ∀ (p : Bool) (e : MixerEngine α) (g1 : Process α),
    e.mStream = none → run tanh ⟨p, some e⟩ evs = some g1 →
    ∃ e1, g1.gEngine = some e1 ∧ e1.mStream = none := by
  induction evs with
  | nil =>
    intro p e g1 hnone hrun
    simp only [run, Option.some.injEq] at hrun
    exact ⟨e, by rw [← hrun], hnone⟩
  | cons ev evs ih =>
    intro p e g1 hnone hrun
    unfold run at hrun
    cases ev with
    | audioReady stream audioData numFrames =>
      simp only [step] at hrun
      cases hr : e.onAudioReady tanh p stream audioData numFrames with
      | none => simp [hr] at hrun
      | some r =>
        simp only [hr] at hrun
        exact ih _ _ g1 (onAudioReady_stream_none tanh e p stream audioData numFrames r hnone hr)
          hrun
    | playClick =>
      simp only [step, nativePlayClick] at hrun
      exact ih _ _ g1 hnone hrun
    | setBgmOn bgmOn =>
      simp only [step, nativeSetBgmOn] at hrun
      exact ih p (e.setBgmOn bgmOn) g1 hnone hrun

/-- From an engine satisfying `Inv` every run returns. -/
theorem run_total {α : Type} [Add α] [Mul α] [OfScientific α] (tanh : α → α)
    (evs : List (Event α)) : ∀ (p : Bool) (e : MixerEngine α), Inv e →
    ∃ p1 e1, run tanh ⟨p, some e⟩ evs = some ⟨p1, some e1⟩ ∧ Inv e1 := by
  induction evs with
  | nil =>
    intro p e h
    exact ⟨p, e, rfl, h⟩
  | cons ev evs ih =>
    intro p e h
    cases ev with
    | audioReady stream audioData numFrames =>
      obtain ⟨r, hr, hinv⟩ := onAudioReady_inv tanh e p stream audioData numFrames h
      obtain ⟨p1, e1, hrun, hinv1⟩ := ih r.pending r.engine hinv
      exact ⟨p1, e1, by simp only [run, step, hr, hrun], hinv1⟩
    | playClick =>
      obtain ⟨p1, e1, hrun, hinv1⟩ := ih true e h
      exact ⟨p1, e1, by simpa only [run, step, nativePlayClick] using hrun, hinv1⟩
    | setBgmOn bgmOn =>
      obtain ⟨p1, e1, hrun, hinv1⟩ := ih p (e.setBgmOn bgmOn) h
      exact ⟨p1, e1, by simpa only [run, step, nativeSetBgmOn] using hrun, hinv1⟩

theorem iterate_nativePlayClick {α : Type} (g : Process α) (k : Nat) :
    Nat.iterate nativePlayClick (k + 1) g = nativePlayClick g := by
  induction k with
  | zero => rfl
  | succ k ih =>
    rw [Function.iterate_succ_apply', ih]
    rfl

theorem run_cons {α : Type} [Add α] [Mul α] [OfScientific α] (tanh : α → α)
    (g g1 : Process α) (ev : Event α) (evs : List (Event α))
    (h : step tanh g ev = some g1) : run tanh g (ev :: evs) = run tanh g1 evs := by
  simp only [run, h]

theorem run_append {α : Type} [Add α] [Mul α] [OfScientific α] (tanh : α → α)
    (xs ys : List (Event α)) : ∀ (g g1 : Process α), run tanh g xs = some g1 →
    run tanh g (xs ++ ys) = run tanh g1 ys := by
  induction xs with
  | nil =>
    intro g g1 h
    simp only [run, Option.some.injEq] at h
    rw [List.nil_append, h]
  | cons x xs ih =>
    intro g g1 h
    unfold run at h
    cases hs : step tanh g x with
    | none => simp [hs] at h
    | some g0 =>
      simp only [hs] at h
      rw [List.cons_append]
      simp only [run, hs]
      exact ih g0 g1 h

theorem run_playClicks {α : Type} [Add α] [Mul α] [OfScientific α] (tanh : α → α)
    (k : Nat) : ∀ (g : Process α),
    run tanh g (List.replicate (k + 1) Event.playClick) = some (nativePlayClick g) := by
  induction k with
  | zero =>
    intro g
    rfl
  | succ k ih =>
    intro g
    rw [List.replicate_succ]
    unfold run
    simp only [step]
    rw [ih]
    rfl

/-! ## Claims -/

/-- C1: a valid callback (positive frame count, a buffer, stream not
disconnected) on any mixer state satisfying the state predicate returns
`Continue`, leaves the buffer cells from `numFrames` on untouched, and writes
to each cell `i < numFrames` the value `tanh (0.8 * (b + c))`, where `b` is
`bgmTable[bgmCursor] * 0.005` if bgm is enabled (else `0`) and `c` is
`clickTable[clickCursor] * 0.9` if the click is active (else `0`), the cursors
being those reached after the `i` preceding samples of this callback. -/
theorem onAudioReady_output (e : MixerEngine ℝ) (pending : Bool) (stream : AudioStream)
    (out : Nat → ℝ) (numFrames : Int) (hn : 0 < numFrames)
    (hs : stream.state ≠ StreamState.Disconnected) (h : Inv e) :
    ∃ r out1, e.onAudioReady Real.tanh pending stream (some out) numFrames = some r ∧
      r.result = DataCallbackResult.Continue ∧ r.audioData = some out1 ∧
      (∀ j : Nat, numFrames ≤ (j : Int) → out1 j = out j) ∧
      ∀ i : Nat, (i : Int) < numFrames →
        ∃ b c, bgmTerm (advance (consumeTrigger e pending) i) = some b ∧
          clickTerm (advance (consumeTrigger e pending) i) = some c ∧
          out1 i = Real.tanh (0.8 * (b + c)) := by
  have hi := inv_consumeTrigger e pending h
  obtain ⟨out1, hcall, hrun⟩ := onAudioReady_valid Real.tanh e pending stream out numFrames hn hs h
  obtain ⟨out2, hrun2, hframe, hval⟩ :=
    mixLoop_spec Real.tanh numFrames.toNat 0 (consumeTrigger e pending) out hi
  rw [hrun] at hrun2
  simp only [Option.some.injEq, Prod.mk.injEq, true_and] at hrun2
  subst hrun2
  refine ⟨_, out1, hcall, rfl, rfl, ?_, ?_⟩
  · intro j hj
    exact hframe j (Or.inr (by omega))
  · intro i hlt
    obtain ⟨s, hm, hv⟩ := hval i (by omega)
    obtain ⟨b, c, hb, hc, hsum⟩ := mixFrame_sum _ _ s (inv_advance _ i hi) hm
    refine ⟨b, c, hb, hc, ?_⟩
    rw [Nat.zero_add] at hv
    rw [hv, hsum, mul_comm]

theorem onAudioReady_output_witness :
    ∃ r out1, sampleEngine.onAudioReady Real.tanh true startedStream (some (fun _ => 0)) 3
        = some r ∧
      r.result = DataCallbackResult.Continue ∧ r.audioData = some out1 ∧
      (∀ j : Nat, (3 : Int) ≤ (j : Int) → out1 j = (fun _ => (0 : ℝ)) j) ∧
      ∀ i : Nat, (i : Int) < 3 →
        ∃ b c, bgmTerm (advance (consumeTrigger sampleEngine true) i) = some b ∧
          clickTerm (advance (consumeTrigger sampleEngine true) i) = some c ∧
          out1 i = Real.tanh (0.8 * (b + c)) :=
  onAudioReady_output sampleEngine true startedStream (fun _ => 0) 3 (by decide)
    (by decide) (by decide)

/-- C2: whatever the bgm flag, the click state, the table contents and the
cursor positions (of a state satisfying the state predicate), every sample a
valid callback writes has magnitude strictly below `1`. -/
theorem onAudioReady_amplitude (e : MixerEngine ℝ) (pending : Bool) (stream : AudioStream)
    (out : Nat → ℝ) (numFrames : Int) (hn : 0 < numFrames)
    (hs : stream.state ≠ StreamState.Disconnected) (h : Inv e) :
    ∃ r out1, e.onAudioReady Real.tanh pending stream (some out) numFrames = some r ∧
      r.audioData = some out1 ∧
      ∀ i : Nat, (i : Int) < numFrames → |out1 i| < 1 := by
  have hi := inv_consumeTrigger e pending h
  obtain ⟨out1, hcall, hrun⟩ := onAudioReady_valid Real.tanh e pending stream out numFrames hn hs h
  obtain ⟨out2, hrun2, -, hval⟩ :=
    mixLoop_spec Real.tanh numFrames.toNat 0 (consumeTrigger e pending) out hi
  rw [hrun] at hrun2
  simp only [Option.some.injEq, Prod.mk.injEq, true_and] at hrun2
  subst hrun2
  refine ⟨_, out1, hcall, rfl, ?_⟩
  intro i hlt
  obtain ⟨s, -, hv⟩ := hval i (by omega)
  rw [Nat.zero_add] at hv
  rw [hv]
  exact abs_tanh_lt_one _

theorem onAudioReady_amplitude_witness :
    ∃ r out1, busyEngine.onAudioReady Real.tanh false startedStream (some (fun _ => 5)) 4
        = some r ∧
      r.audioData = some out1 ∧
      ∀ i : Nat, (i : Int) < 4 → |out1 i| < 1 :=
  onAudioReady_amplitude busyEngine false startedStream (fun _ => 5) 4 (by decide)
    (by decide) (by decide)

/-- C3: the mixer-state predicate `0 ≤ bgmIndex < 48000 ∧ (clickActive →
0 ≤ clickIndex < 2400)` holds in a freshly constructed engine and is preserved
by every `onAudioReady` call (any frame count, buffer, stream state, pending
flag and bgm flag), by `setBgmOn` and by `nativePlayClick`; and from such a
state `onAudioReady` returns a result, that is, no table read in the callback
was out of bounds. -/
theorem mixer_state_invariant {α : Type} [Add α] [Mul α] [OfScientific α] (tanh : α → α) :
    (∀ (bgm : Fin kBgmCycle → α) (click : Fin kClickLen → α),
      Inv (MixerEngine.init bgm click)) ∧
    (∀ (e : MixerEngine α) (pending : Bool) (stream : AudioStream)
      (audioData : Option (Nat → α)) (numFrames : Int), Inv e →
      ∃ r, e.onAudioReady tanh pending stream audioData numFrames = some r ∧
        Inv r.engine) ∧
    (∀ (e : MixerEngine α) (bgmOn : Bool), Inv e → Inv (e.setBgmOn bgmOn)) ∧
    (∀ (g : Process α), (nativePlayClick g).gEngine = g.gEngine) ∧
    (∀ (g : Process α) (bgmOn : Bool) (e : MixerEngine α), g.gEngine = some e → Inv e →
      ∃ e1, (nativeSetBgmOn g bgmOn).gEngine = some e1 ∧ Inv e1) := by
  refine ⟨?_, ?_, ?_, ?_, ?_⟩
  · intro bgm click
    refine ⟨⟨le_refl _, ?_⟩, fun hc => ?_⟩
    · simp only [MixerEngine.init, kBgmCycle_cast]
      decide
    · simp [MixerEngine.init] at hc
  · intro e pending stream audioData numFrames h
    exact onAudioReady_inv tanh e pending stream audioData numFrames h
  · intro e bgmOn h
    exact h
  · intro g
    rfl
  · intro g bgmOn e hg h
    refine ⟨e.setBgmOn bgmOn, ?_, h⟩
    simp only [nativeSetBgmOn, hg]

theorem mixer_state_invariant_witness :
    Inv busyEngine ∧
    ∃ r, busyEngine.onAudioReady Real.tanh true startedStream (some (fun _ => 0)) 5000
        = some r ∧ Inv r.engine :=
  ⟨by decide,
   (mixer_state_invariant Real.tanh).2.1 busyEngine true startedStream (some (fun _ => 0)) 5000
     (by decide)⟩

/-- C4: a valid callback that consumes a pending trigger behaves as the same
callback on the engine with the click reset to index `0`, active, and no
trigger; and if no `playClick` follows, then however the following frames are
split into callbacks, after `k` frames processed since the consumption the
click is active iff `k < 2400` and the click index is `min k 2400`. -/
theorem click_one_shot {α : Type} [Add α] [Mul α] [OfScientific α] (tanh : α → α)
    (e : MixerEngine α) (stream : AudioStream) (out : Nat → α) (numFrames : Int)
    (evs : List (Event α)) (hn : 0 < numFrames)
    (hs : stream.state ≠ StreamState.Disconnected) (h : Inv e)
    (hno : ∀ ev ∈ evs, ev ≠ Event.playClick) :
    e.onAudioReady tanh true stream (some out) numFrames =
      MixerEngine.onAudioReady tanh { e with mClickIndex := 0, mClickActive := true } false
        stream (some out) numFrames ∧
    ∃ g1 e1, run tanh ⟨true, some e⟩ (Event.audioReady stream (some out) numFrames :: evs)
        = some g1 ∧ g1.gEngine = some e1 ∧
      (e1.mClickActive = true ↔ numFrames.toNat + framesProcessed evs < 2400) ∧
      e1.mClickIndex = ((min (numFrames.toNat + framesProcessed evs) 2400 : Nat) : Int) := by
  constructor
  · have hn1 : ¬ numFrames ≤ 0 := by omega
    simp only [MixerEngine.onAudioReady, if_true, Bool.false_eq_true, if_false, hn1, hs]
  · have hv : ValidCallback stream (some out) numFrames := ⟨hn, rfl, hs⟩
    have hstep := step_valid tanh true e stream (some out) numFrames hv h
    have hinv := inv_advance _ numFrames.toNat (inv_consumeTrigger e true h)
    obtain ⟨p1, e1, hrun, -, hact, hidx⟩ :=
      run_click tanh evs false (advance (consumeTrigger e true) numFrames.toNat)
        numFrames.toNat hinv
        (by
          simp only [consumeTrigger, advance, if_true, Bool.true_and, decide_eq_true_eq,
            kClickLen_cast]
          omega)
        (by
          simp only [consumeTrigger, advance, if_true, kClickLen_cast]
          omega)
    rw [framesSinceTrigger_noClick evs _ hno] at hact hidx
    refine ⟨⟨p1, some e1⟩, e1, ?_, rfl, hact, hidx⟩
    simp only [run, hstep, hrun]

theorem click_one_shot_witness :
    sampleEngine.onAudioReady Real.tanh true startedStream (some (fun _ => 0)) 1000 =
      MixerEngine.onAudioReady Real.tanh
        { sampleEngine with mClickIndex := 0, mClickActive := true } false
        startedStream (some (fun _ => 0)) 1000 ∧
    ∃ g1 e1, run Real.tanh ⟨true, some sampleEngine⟩
        (Event.audioReady startedStream (some (fun _ => 0)) 1000 ::
          [Event.audioReady startedStream (some (fun _ => 0)) 1399,
           Event.setBgmOn false,
           Event.audioReady startedStream (some (fun _ => 0)) 1])
        = some g1 ∧ g1.gEngine = some e1 ∧
      (e1.mClickActive = true ↔
        (1000 : Int).toNat + framesProcessed
          [Event.audioReady startedStream (some (fun _ => (0 : ℝ))) 1399,
           Event.setBgmOn false,
           Event.audioReady startedStream (some (fun _ => 0)) 1] < 2400) ∧
      e1.mClickIndex = ((min ((1000 : Int).toNat + framesProcessed
          [Event.audioReady startedStream (some (fun _ => (0 : ℝ))) 1399,
           Event.setBgmOn false,
           Event.audioReady startedStream (some (fun _ => 0)) 1]) 2400 : Nat) : Int) :=
  click_one_shot Real.tanh sampleEngine startedStream (fun _ => 0) 1000 _ (by decide)
    (by decide) (by decide) (by simp)

/-- C5, as the code has it: after a valid callback has consumed a trigger,
for every interleaving of `playClick`, `setBgmOn` and callbacks, the click is
active iff fewer than `2400` frames were processed since the start of the last
callback that consumed a trigger, and its index is that number capped at
`2400`; a `playClick` arriving while the click plays is consumed by the next
valid callback, which restarts the click at index `0`. -/
theorem click_restarts_on_trigger {α : Type} [Add α] [Mul α] [OfScientific α] (tanh : α → α)
    (e : MixerEngine α) (stream : AudioStream) (out : Nat → α) (numFrames : Int)
    (evs : List (Event α)) (hn : 0 < numFrames)
    (hs : stream.state ≠ StreamState.Disconnected) (h : Inv e) :
    ∃ g1 e1, run tanh ⟨true, some e⟩ (Event.audioReady stream (some out) numFrames :: evs)
        = some g1 ∧ g1.gEngine = some e1 ∧
      (e1.mClickActive = true ↔ framesSinceTrigger false numFrames.toNat evs < 2400) ∧
      e1.mClickIndex = ((min (framesSinceTrigger false numFrames.toNat evs) 2400 : Nat) : Int) := by
  have hv : ValidCallback stream (some out) numFrames := ⟨hn, rfl, hs⟩
  have hstep := step_valid tanh true e stream (some out) numFrames hv h
  have hinv := inv_advance _ numFrames.toNat (inv_consumeTrigger e true h)
  obtain ⟨p1, e1, hrun, -, hact, hidx⟩ :=
    run_click tanh evs false (advance (consumeTrigger e true) numFrames.toNat)
      numFrames.toNat hinv
      (by
        simp only [consumeTrigger, advance, if_true, Bool.true_and, decide_eq_true_eq,
          kClickLen_cast]
        omega)
      (by
        simp only [consumeTrigger, advance, if_true, kClickLen_cast]
        omega)
  refine ⟨⟨p1, some e1⟩, e1, ?_, rfl, hact, hidx⟩
  simp only [run, hstep, hrun]

theorem click_restarts_on_trigger_witness :
    ∃ g1 e1, run Real.tanh ⟨true, some busyEngine⟩
        (Event.audioReady startedStream (some (fun _ => 0)) 2000 ::
          [Event.playClick, Event.playClick,
           Event.audioReady startedStream (some (fun _ => 0)) 500])
        = some g1 ∧ g1.gEngine = some e1 ∧
      (e1.mClickActive = true ↔
        framesSinceTrigger false (2000 : Int).toNat
          [Event.playClick, Event.playClick,
           Event.audioReady startedStream (some (fun _ => (0 : ℝ))) 500] < 2400) ∧
      e1.mClickIndex = ((min (framesSinceTrigger false (2000 : Int).toNat
          [Event.playClick, Event.playClick,
           Event.audioReady startedStream (some (fun _ => (0 : ℝ))) 500]) 2400 : Nat) : Int) :=
  click_restarts_on_trigger Real.tanh busyEngine startedStream (fun _ => 0) 2000 _
    (by decide) (by decide) (by decide)

/-- C5 as stated fails: a trigger is consumed by a callback of `100` frames,
`playClick` arrives while the click plays, and a callback of `2300` frames
follows. After these `2400` frames the click is still active, at index `2300`:
the second trigger restarted it. -/
theorem click_window_extended :
    ∃ g1 e1, run Real.tanh ⟨true, some sampleEngine⟩
        [Event.audioReady startedStream (some (fun _ => 0)) 100,
         Event.playClick,
         Event.audioReady startedStream (some (fun _ => 0)) 2300] = some g1 ∧
      g1.gEngine = some e1 ∧ e1.mClickActive = true ∧ e1.mClickIndex = 2300 ∧
      framesProcessed
        [Event.audioReady startedStream (some (fun _ => (0 : ℝ))) 100,
         Event.playClick,
         Event.audioReady startedStream (some (fun _ => 0)) 2300] = 2400 := by
  have hv1 : ValidCallback startedStream (some (fun _ => (0 : ℝ))) 100 := by decide
  have hv2 : ValidCallback startedStream (some (fun _ => (0 : ℝ))) 2300 := by decide
  have hinv : Inv sampleEngine := by decide
  have hstep := step_valid Real.tanh true sampleEngine startedStream _ 100 hv1 hinv
  obtain ⟨p1, e1, hrun, -, hact, hidx⟩ :=
    run_click Real.tanh
      [Event.playClick, Event.audioReady startedStream (some (fun _ => (0 : ℝ))) 2300]
      false (advance (consumeTrigger sampleEngine true) (100 : Int).toNat) 100
      (inv_advance _ _ (inv_consumeTrigger _ _ hinv))
      (by
        simp only [consumeTrigger, advance, if_true, Bool.true_and, decide_eq_true_eq,
          kClickLen_cast]
        decide)
      (by
        simp only [consumeTrigger, advance, if_true, kClickLen_cast]
        decide)
  have hage : framesSinceTrigger false 100
      [Event.playClick, Event.audioReady startedStream (some (fun _ => (0 : ℝ))) 2300]
      = 2300 := by
    simp only [framesSinceTrigger, hv2, if_true]
    decide
  rw [hage] at hact hidx
  refine ⟨⟨p1, some e1⟩, e1, ?_, rfl, hact.mpr (by decide), ?_, ?_⟩
  · unfold run
    simp only [hstep]
    exact hrun
  · rw [hidx]
    decide
  · simp only [framesProcessed, Event.frames, hv1, hv2, if_true]
    decide

/-- C6: from a valid bgm cursor position `c`, a run with bgm enabled
throughout that processes `n` frames leaves the cursor at `(c + n) mod 48000`;
after exactly `48000` frames it is back at `c`, and after fewer (but some)
frames it is not. -/
theorem bgm_loop {α : Type} [Add α] [Mul α] [OfScientific α] (tanh : α → α)
    (p : Bool) (e : MixerEngine α) (evs : List (Event α)) (h : Inv e)
    (hon : e.mBgmOn = true) (hev : ∀ ev ∈ evs, ev ≠ Event.setBgmOn false) :
    ∃ g1 e1, run tanh ⟨p, some e⟩ evs = some g1 ∧ g1.gEngine = some e1 ∧
      e1.mBgmIndex = (e.mBgmIndex + (framesProcessed evs : Int)) % (kBgmCycle : Int) ∧
      (framesProcessed evs = kSampleRate → e1.mBgmIndex = e.mBgmIndex) ∧
      (0 < framesProcessed evs → framesProcessed evs < kSampleRate →
        e1.mBgmIndex ≠ e.mBgmIndex) := by
  obtain ⟨p1, e1, hrun, hb⟩ := run_bgm tanh evs p e h hon hev
  obtain ⟨⟨h0, h1⟩, -⟩ := h
  simp only [kBgmCycle_cast] at h1
  refine ⟨⟨p1, some e1⟩, e1, hrun, rfl, ?_, ?_, ?_⟩
  · simpa only [kBgmCycle_cast] using hb
  · intro hn
    have hn1 : framesProcessed evs = 48000 := hn
    rw [hb]
    omega
  · intro hpos hlt
    have hlt1 : framesProcessed evs < 48000 := hlt
    rw [hb]
    omega

theorem bgm_loop_witness :
    ∃ g1 e1, run Real.tanh ⟨false, some busyEngine⟩
        [Event.audioReady startedStream (some (fun _ => 0)) 40000,
         Event.playClick,
         Event.audioReady startedStream (some (fun _ => 0)) 8000] = some g1 ∧
      g1.gEngine = some e1 ∧
      e1.mBgmIndex = (busyEngine.mBgmIndex + (framesProcessed
        [Event.audioReady startedStream (some (fun _ => (0 : ℝ))) 40000,
         Event.playClick,
         Event.audioReady startedStream (some (fun _ => 0)) 8000] : Int)) % (kBgmCycle : Int) ∧
      (framesProcessed
        [Event.audioReady startedStream (some (fun _ => (0 : ℝ))) 40000,
         Event.playClick,
         Event.audioReady startedStream (some (fun _ => 0)) 8000] = kSampleRate →
        e1.mBgmIndex = busyEngine.mBgmIndex) ∧
      (0 < framesProcessed
        [Event.audioReady startedStream (some (fun _ => (0 : ℝ))) 40000,
         Event.playClick,
         Event.audioReady startedStream (some (fun _ => 0)) 8000] →
       framesProcessed
        [Event.audioReady startedStream (some (fun _ => (0 : ℝ))) 40000,
         Event.playClick,
         Event.audioReady startedStream (some (fun _ => 0)) 8000] < kSampleRate →
        e1.mBgmIndex ≠ busyEngine.mBgmIndex) :=
  bgm_loop Real.tanh false busyEngine _ (by decide) rfl (by simp)

/-- C7: a callback with `numFrames ≤ 0` or a null buffer, whatever the stream
state, returns `Continue` and changes nothing: the buffer, the engine (cursors,
click flag, stream handle) and the pending trigger are as before. -/
theorem invalid_callback_noop {α : Type} [Add α] [Mul α] [OfScientific α] (tanh : α → α)
    (e : MixerEngine α) (pending : Bool) (stream : AudioStream)
    (audioData : Option (Nat → α)) (numFrames : Int)
    (hbad : numFrames ≤ 0 ∨ audioData = none) :
    e.onAudioReady tanh pending stream audioData numFrames =
      some ⟨DataCallbackResult.Continue, e, pending, audioData⟩ := by
  cases audioData with
  | none => rfl
  | some out =>
    have hn : numFrames ≤ 0 := by
      cases hbad with
      | inl h => exact h
      | inr h => simp at h
    simp only [MixerEngine.onAudioReady, hn, if_true]

theorem invalid_callback_noop_witness :
    busyEngine.onAudioReady Real.tanh true lostStream (some (fun _ => 7)) (-3) =
      some ⟨DataCallbackResult.Continue, busyEngine, true, some (fun _ => 7)⟩ :=
  invalid_callback_noop Real.tanh busyEngine true lostStream (some (fun _ => 7)) (-3)
    (Or.inl (by decide))

/-- C8: a callback with `numFrames > 0` and a buffer on a stream reporting
`Disconnected` returns `Stop`, releases the stream handle and leaves the
buffer, the mixer cursors and the pending trigger as they were; the engine is
unhealthy right away and stays so through every later run of callbacks,
`nativePlayClick` and `nativeSetBgmOn`, and such runs do return from an engine
satisfying the state predicate. -/
theorem disconnected_callback {α : Type} [Add α] [Mul α] [OfScientific α] (tanh : α → α)
    (e : MixerEngine α) (pending : Bool) (stream : AudioStream) (out : Nat → α)
    (numFrames : Int) (hn : 0 < numFrames)
    (hs : stream.state = StreamState.Disconnected) :
    e.onAudioReady tanh pending stream (some out) numFrames =
      some ⟨DataCallbackResult.Stop, { e with mStream := none }, pending, some out⟩ ∧
    MixerEngine.isStreamHealthy { e with mStream := none } = false ∧
    nativeIsStreamHealthy ⟨pending, some { e with mStream := none }⟩ = false ∧
    (∀ (evs : List (Event α)) (g1 : Process α),
      run tanh ⟨pending, some { e with mStream := none }⟩ evs = some g1 →
      ∃ e1, g1.gEngine = some e1 ∧ e1.isStreamHealthy = false ∧
        nativeIsStreamHealthy g1 = false) ∧
    (Inv e → ∀ (evs : List (Event α)),
      ∃ g1, run tanh ⟨pending, some { e with mStream := none }⟩ evs = some g1) := by
  have hn1 : ¬ numFrames ≤ 0 := by omega
  refine ⟨?_, rfl, rfl, ?_, ?_⟩
  · simp only [MixerEngine.onAudioReady, hn1, hs, if_true, if_false]
  · intro evs g1 hrun
    obtain ⟨e1, hg, hnone⟩ := run_stream_none tanh evs pending _ g1 rfl hrun
    refine ⟨e1, hg, ?_, ?_⟩
    · simp only [MixerEngine.isStreamHealthy, hnone]
    · simp only [nativeIsStreamHealthy, hg, MixerEngine.isStreamHealthy, hnone]
  · intro h evs
    obtain ⟨p1, e1, hrun, -⟩ := run_total tanh evs pending _ (inv_clear_stream e h)
    exact ⟨_, hrun⟩

theorem disconnected_callback_witness :
    (busyEngine.onAudioReady Real.tanh true lostStream (some (fun _ => 7)) 64 =
      some ⟨DataCallbackResult.Stop, { busyEngine with mStream := none }, true,
        some (fun _ => 7)⟩ ∧
    MixerEngine.isStreamHealthy { busyEngine with mStream := none } = false ∧
    nativeIsStreamHealthy ⟨true, some { busyEngine with mStream := none }⟩ = false ∧
    (∀ (evs : List (Event ℝ)) (g1 : Process ℝ),
      run Real.tanh ⟨true, some { busyEngine with mStream := none }⟩ evs = some g1 →
      ∃ e1, g1.gEngine = some e1 ∧ e1.isStreamHealthy = false ∧
        nativeIsStreamHealthy g1 = false) ∧
    (Inv busyEngine → ∀ (evs : List (Event ℝ)),
      ∃ g1, run Real.tanh ⟨true, some { busyEngine with mStream := none }⟩ evs = some g1)) ∧
    busyEngine.isStreamHealthy = true ∧ Inv busyEngine :=
  ⟨disconnected_callback Real.tanh busyEngine true lostStream (fun _ => 7) 64 (by decide)
    (by decide), by decide, by decide⟩

/-- C9: `nativePlayClick` sets the one pending flag and nothing else, and
`k ≥ 1` calls leave the state one call leaves; after `k ≥ 1` calls a valid
callback starts the click once (index `0`) and clears the flag; every valid
callback leaves the flag cleared; the callback after it runs on from the
cursors it finds, and resets the click again only if `nativePlayClick` was
called in between. -/
theorem trigger_channel {α : Type} [Add α] [Mul α] [OfScientific α] (tanh : α → α)
    (p : Bool) (e : MixerEngine α) (k : Nat)
    (stream1 stream2 : AudioStream) (out1 out2 : Nat → α) (n1 n2 : Int)
    (hk : 1 ≤ k) (hv1 : ValidCallback stream1 (some out1) n1)
    (hv2 : ValidCallback stream2 (some out2) n2) (h : Inv e) :
    nativePlayClick (⟨p, some e⟩ : Process α) = ⟨true, some e⟩ ∧
    Nat.iterate nativePlayClick k (⟨p, some e⟩ : Process α) = nativePlayClick ⟨p, some e⟩ ∧
    run tanh ⟨p, some e⟩ (List.replicate k Event.playClick) = some ⟨true, some e⟩ ∧
    run tanh ⟨p, some e⟩
        (List.replicate k Event.playClick ++ [Event.audioReady stream1 (some out1) n1]) =
      some ⟨false, some (advance { e with mClickIndex := 0, mClickActive := true } n1.toNat)⟩ ∧
    step tanh ⟨p, some e⟩ (Event.audioReady stream1 (some out1) n1) =
      some ⟨false, some (advance (consumeTrigger e p) n1.toNat)⟩ ∧
    run tanh ⟨p, some e⟩
        [Event.audioReady stream1 (some out1) n1, Event.audioReady stream2 (some out2) n2] =
      some ⟨false, some (advance (advance (consumeTrigger e p) n1.toNat) n2.toNat)⟩ ∧
    run tanh ⟨p, some e⟩
        [Event.audioReady stream1 (some out1) n1, Event.playClick,
         Event.audioReady stream2 (some out2) n2] =
      some ⟨false, some (advance
        { advance (consumeTrigger e p) n1.toNat with mClickIndex := 0, mClickActive := true }
        n2.toNat)⟩ := by
  obtain ⟨k, rfl⟩ : ∃ j, k = j + 1 := ⟨k - 1, by omega⟩
  have hinv1 := inv_advance _ n1.toNat (inv_consumeTrigger e p h)
  have hs1 := step_valid tanh p e stream1 (some out1) n1 hv1 h
  have hs1t := step_valid tanh true e stream1 (some out1) n1 hv1 h
  have hs2 := step_valid tanh false _ stream2 (some out2) n2 hv2 hinv1
  have hs2t := step_valid tanh true _ stream2 (some out2) n2 hv2 hinv1
  have hct : ∀ x : MixerEngine α,
      consumeTrigger x true = { x with mClickIndex := 0, mClickActive := true } :=
    fun _ => rfl
  rw [hct] at hs1t hs2t
  have hc : consumeTrigger (advance (consumeTrigger e p) n1.toNat) false =
      advance (consumeTrigger e p) n1.toNat := rfl
  rw [hc] at hs2
  refine ⟨rfl, iterate_nativePlayClick _ k, run_playClicks tanh k _, ?_, hs1, ?_, ?_⟩
  · rw [run_append tanh _ _ _ _ (run_playClicks tanh k _)]
    show run tanh ⟨true, some e⟩ [Event.audioReady stream1 (some out1) n1] = _
    rw [run_cons tanh _ _ _ _ hs1t]
    rfl
  · rw [run_cons tanh _ _ _ _ hs1, run_cons tanh _ _ _ _ hs2]
    rfl
  · have hpc : step tanh ⟨false, some (advance (consumeTrigger e p) n1.toNat)⟩
        Event.playClick = some ⟨true, some (advance (consumeTrigger e p) n1.toNat)⟩ := rfl
    rw [run_cons tanh _ _ _ _ hs1, run_cons tanh _ _ _ _ hpc, run_cons tanh _ _ _ _ hs2t]
    rfl

theorem trigger_channel_witness :
    nativePlayClick (⟨false, some sampleEngine⟩ : Process ℝ) = ⟨true, some sampleEngine⟩ ∧
    Nat.iterate nativePlayClick 3 (⟨false, some sampleEngine⟩ : Process ℝ) =
      nativePlayClick ⟨false, some sampleEngine⟩ ∧
    run Real.tanh ⟨false, some sampleEngine⟩ (List.replicate 3 Event.playClick) =
      some ⟨true, some sampleEngine⟩ ∧
    run Real.tanh ⟨false, some sampleEngine⟩
        (List.replicate 3 Event.playClick ++
          [Event.audioReady startedStream (some (fun _ => 0)) 128]) =
      some ⟨false, some (advance
        { sampleEngine with mClickIndex := 0, mClickActive := true } (128 : Int).toNat)⟩ ∧
    step Real.tanh ⟨false, some sampleEngine⟩
        (Event.audioReady startedStream (some (fun _ => 0)) 128) =
      some ⟨false, some (advance (consumeTrigger sampleEngine false) (128 : Int).toNat)⟩ ∧
    run Real.tanh ⟨false, some sampleEngine⟩
        [Event.audioReady startedStream (some (fun _ => 0)) 128,
         Event.audioReady startedStream (some (fun _ => 1)) 256] =
      some ⟨false, some (advance (advance (consumeTrigger sampleEngine false)
        (128 : Int).toNat) (256 : Int).toNat)⟩ ∧
    run Real.tanh ⟨false, some sampleEngine⟩
        [Event.audioReady startedStream (some (fun _ => 0)) 128, Event.playClick,
         Event.audioReady startedStream (some (fun _ => 1)) 256] =
      some ⟨false, some (advance
        { advance (consumeTrigger sampleEngine false) (128 : Int).toNat with
          mClickIndex := 0, mClickActive := true }
        (256 : Int).toNat)⟩ :=
  trigger_channel Real.tanh false sampleEngine 3 startedStream startedStream
    (fun _ => 0) (fun _ => 1) 128 256 (by decide) (by decide) (by decide) (by decide)

/-- C10: `isStreamHealthy` is true iff the engine holds a stream handle whose
state is `Open`, `Starting` or `Started`; `nativeIsStreamHealthy` is true iff
an engine instance exists and is healthy in that sense, and false when there
is no instance. -/
theorem stream_health {α : Type} :
    (∀ e : MixerEngine α, e.isStreamHealthy = true ↔
      ∃ s, e.mStream = some s ∧
        (s.state = StreamState.Open ∨ s.state = StreamState.Starting ∨
          s.state = StreamState.Started)) ∧
    (∀ g : Process α, nativeIsStreamHealthy g = true ↔
      ∃ e s, g.gEngine = some e ∧ e.mStream = some s ∧
        (s.state = StreamState.Open ∨ s.state = StreamState.Starting ∨
          s.state = StreamState.Started)) ∧
    (∀ p : Bool, nativeIsStreamHealthy (⟨p, none⟩ : Process α) = false) := by
  have hE : ∀ e : MixerEngine α, e.isStreamHealthy = true ↔
      ∃ s, e.mStream = some s ∧
        (s.state = StreamState.Open ∨ s.state = StreamState.Starting ∨
          s.state = StreamState.Started) := by
    intro e
    unfold MixerEngine.isStreamHealthy
    cases hm : e.mStream with
    | none => simp
    | some s =>
      simp only [Bool.or_eq_true, beq_iff_eq, Option.some.injEq, exists_eq_left']
      tauto
  refine ⟨hE, ?_, fun _ => rfl⟩
  intro g
  unfold nativeIsStreamHealthy
  cases hg : g.gEngine with
  | none => simp
  | some e =>
    rw [hE e]
    constructor
    · rintro ⟨s, hs, hst⟩
      exact ⟨e, s, rfl, hs, hst⟩
    · rintro ⟨e1, s, he, hs, hst⟩
      simp only [Option.some.injEq] at he
      subst he
      exact ⟨s, hs, hst⟩

/-! ## The stream lifecycle -/

theorem inv_construct {α : Type} [Add α] [Mul α] [Div α] [IntCast α] [OfScientific α]
    (sin exp : α → α) (pi : α) (noise : Nat → α) :
    Inv (MixerEngine.construct sin exp pi noise) := by
  refine ⟨⟨le_refl _, ?_⟩, fun hc => ?_⟩
  · simp only [MixerEngine.construct, MixerEngine.init, kBgmCycle_cast]
    decide
  · simp [MixerEngine.construct, MixerEngine.init] at hc

theorem inv_start {α : Type} (pf : Platform) (e : MixerEngine α) (h : Inv e) :
    Inv (e.start pf).2 := by
  unfold MixerEngine.start
  split
  · exact h
  · exact h

theorem nativeStart_of_engine {α : Type} [Add α] [Mul α] [Div α] [IntCast α] [OfScientific α]
    (sin exp : α → α) (pi : α) (noise : Nat → α) (pf : Platform) (g : Process α)
    (e : MixerEngine α) (hg : g.gEngine = some e) :
    nativeStart sin exp pi noise pf g = (false, g) := by
  simp only [nativeStart, hg]

theorem nativeStart_of_none {α : Type} [Add α] [Mul α] [Div α] [IntCast α] [OfScientific α]
    (sin exp : α → α) (pi : α) (noise : Nat → α) (pf : Platform) (g : Process α)
    (hg : g.gEngine = none) :
    nativeStart sin exp pi noise pf g =
      (((MixerEngine.construct sin exp pi noise).start pf).1,
       ⟨g.gClickPending, some ((MixerEngine.construct sin exp pi noise).start pf).2⟩) := by
  simp only [nativeStart, hg]

theorem start_eq_true {α : Type} (pf : Platform) (e : MixerEngine α) :
    (e.start pf).1 = true ↔ pf.openResult = Result.OK ∧ pf.startResult = Result.OK := by
  unfold MixerEngine.start
  by_cases ho : pf.openResult = Result.OK
  · simp [ho]
  · simp [ho]

/-- A run never removes the engine from `gEngine`. -/
theorem run_engine_some {α : Type} [Add α] [Mul α] [OfScientific α] (tanh : α → α)
    (evs : List (Event α)) : ∀ (g g1 : Process α) (e : MixerEngine α),
    g.gEngine = some e → run tanh g evs = some g1 → ∃ e1, g1.gEngine = some e1 := by
  induction evs with
  | nil =>
    intro g g1 e hg hrun
    simp only [run, Option.some.injEq] at hrun
    exact ⟨e, by rw [← hrun]; exact hg⟩
  | cons ev evs ih =>
    intro g g1 e hg hrun
    unfold run at hrun
    cases hs : step tanh g ev with
    | none => simp [hs] at hrun
    | some g0 =>
      simp only [hs] at hrun
      have h0 : ∃ e0, g0.gEngine = some e0 := by
        cases ev with
        | audioReady stream audioData numFrames =>
          simp only [step, hg] at hs
          cases hr : e.onAudioReady tanh g.gClickPending stream audioData numFrames with
          | none => simp [hr] at hs
          | some r =>
            simp only [hr, Option.some.injEq] at hs
            exact ⟨r.engine, by rw [← hs]⟩
        | playClick =>
          simp only [step, nativePlayClick, Option.some.injEq] at hs
          exact ⟨e, by rw [← hs]; exact hg⟩
        | setBgmOn bgmOn =>
          simp only [step, nativeSetBgmOn, hg, Option.some.injEq] at hs
          exact ⟨e.setBgmOn bgmOn, by rw [← hs]⟩
      obtain ⟨e0, he0⟩ := h0
      exact ih g0 g1 e0 he0 hrun

/-- C11: a `nativeStart` called while an engine instance exists returns false
and leaves the whole process state as it was, so the retained engine, its
stream handle, tables, bgm flag, cursors and click state are unchanged; this
is the case for a second start after a first one with no stop in between,
whatever callbacks, `nativePlayClick` and `nativeSetBgmOn` calls came between
the two. -/
theorem single_instance {α : Type} [Add α] [Mul α] [Div α] [IntCast α] [OfScientific α]
    (tanh sin exp : α → α) (pi : α) (noise1 noise2 : Nat → α) (pf1 pf2 : Platform)
    (g0 : Process α) (evs : List (Event α)) (hnone : g0.gEngine = none) :
    (∀ (g : Process α) (e : MixerEngine α), g.gEngine = some e →
      nativeStart sin exp pi noise2 pf2 g = (false, g)) ∧
    nativeStart sin exp pi noise2 pf2 (nativeStart sin exp pi noise1 pf1 g0).2 =
      (false, (nativeStart sin exp pi noise1 pf1 g0).2) ∧
    ∃ g2, run tanh (nativeStart sin exp pi noise1 pf1 g0).2 evs = some g2 ∧
      nativeStart sin exp pi noise2 pf2 g2 = (false, g2) := by
  have hfirst := nativeStart_of_none sin exp pi noise1 pf1 g0 hnone
  refine ⟨fun g e hg => nativeStart_of_engine sin exp pi noise2 pf2 g e hg, ?_, ?_⟩
  · rw [hfirst]
    exact nativeStart_of_engine sin exp pi noise2 pf2 _ _ rfl
  · rw [hfirst]
    obtain ⟨p1, e1, hrun, -⟩ :=
      run_total tanh evs g0.gClickPending _
        (inv_start pf1 _ (inv_construct sin exp pi noise1))
    exact ⟨_, hrun, nativeStart_of_engine sin exp pi noise2 pf2 _ e1 rfl⟩

theorem single_instance_witness :
    (∀ (g : Process ℝ) (e : MixerEngine ℝ), g.gEngine = some e →
      nativeStart Real.sin Real.exp Real.pi (fun _ => 1) refusedPlatform g = (false, g)) ∧
    nativeStart Real.sin Real.exp Real.pi (fun _ => 1) refusedPlatform
        (nativeStart Real.sin Real.exp Real.pi (fun _ => 0) okPlatform idleProcess).2 =
      (false, (nativeStart Real.sin Real.exp Real.pi (fun _ => 0) okPlatform idleProcess).2) ∧
    ∃ g2, run Real.tanh
        (nativeStart Real.sin Real.exp Real.pi (fun _ => 0) okPlatform idleProcess).2
        [Event.playClick, Event.audioReady startedStream (some (fun _ => 0)) 192,
         Event.setBgmOn false] = some g2 ∧
      nativeStart Real.sin Real.exp Real.pi (fun _ => 1) refusedPlatform g2 = (false, g2) :=
  single_instance Real.tanh Real.sin Real.exp Real.pi (fun _ => 0) (fun _ => 1)
    okPlatform refusedPlatform idleProcess _ rfl

theorem wrapInt32_of_range (x : Int) (h0 : -2147483648 ≤ x) (h1 : x < 2147483648) :
    wrapInt32 x = x := by
  unfold wrapInt32
  omega

theorem start_stream {α : Type} (pf : Platform) (e : MixerEngine α)
    (ho : pf.openResult = Result.OK) :
    (e.start pf).2.mStream =
      some { state := pf.startState, framesPerBurst := pf.stream.framesPerBurst,
             bufferSizeInFrames := wrapInt32 (pf.stream.framesPerBurst * 2) } := by
  simp [MixerEngine.start, ho]

/-- C12: `nativeStart` returns true iff no engine instance existed and the
platform both opened the stream (`openStream` gave `OK`) and accepted the
start request (`requestStart` gave `OK`); the same holds for `start()` on an
engine; and when the open succeeds the buffer size requested is twice the
frames per burst the stream reports, the product being within `int32_t`. -/
theorem start_result {α : Type} [Add α] [Mul α] [Div α] [IntCast α] [OfScientific α]
    (sin exp : α → α) (pi : α) (noise : Nat → α) (pf : Platform) (g : Process α) :
    ((nativeStart sin exp pi noise pf g).1 = true ↔
      g.gEngine = none ∧ pf.openResult = Result.OK ∧ pf.startResult = Result.OK) ∧
    (∀ e : MixerEngine α, (e.start pf).1 = true ↔
      pf.openResult = Result.OK ∧ pf.startResult = Result.OK) ∧
    (g.gEngine = none → pf.openResult = Result.OK →
      -2147483648 ≤ pf.stream.framesPerBurst * 2 →
      pf.stream.framesPerBurst * 2 < 2147483648 →
      ∃ e1 s, (nativeStart sin exp pi noise pf g).2.gEngine = some e1 ∧
        e1.mStream = some s ∧ s.framesPerBurst = pf.stream.framesPerBurst ∧
        s.bufferSizeInFrames = 2 * pf.stream.framesPerBurst) := by
  refine ⟨?_, fun e => start_eq_true pf e, ?_⟩
  · cases hg : g.gEngine with
    | some e =>
      rw [nativeStart_of_engine sin exp pi noise pf g e hg]
      simp
    | none =>
      rw [nativeStart_of_none sin exp pi noise pf g hg]
      simp only [start_eq_true, true_and]
  · intro hg ho h0 h1
    rw [nativeStart_of_none sin exp pi noise pf g hg]
    refine ⟨_, _, rfl, start_stream pf _ ho, rfl, ?_⟩
    simp only
    rw [wrapInt32_of_range _ h0 h1]
    omega

theorem start_result_witness :
    ((nativeStart Real.sin Real.exp Real.pi (fun _ => 0) okPlatform idleProcess).1 = true ↔
      idleProcess.gEngine = none ∧ okPlatform.openResult = Result.OK ∧
        okPlatform.startResult = Result.OK) ∧
    (∀ e : MixerEngine ℝ, (e.start okPlatform).1 = true ↔
      okPlatform.openResult = Result.OK ∧ okPlatform.startResult = Result.OK) ∧
    (idleProcess.gEngine = none → okPlatform.openResult = Result.OK →
      -2147483648 ≤ okPlatform.stream.framesPerBurst * 2 →
      okPlatform.stream.framesPerBurst * 2 < 2147483648 →
      ∃ e1 s, (nativeStart Real.sin Real.exp Real.pi (fun _ => 0) okPlatform
          idleProcess).2.gEngine = some e1 ∧
        e1.mStream = some s ∧ s.framesPerBurst = okPlatform.stream.framesPerBurst ∧
        s.bufferSizeInFrames = 2 * okPlatform.stream.framesPerBurst) ∧
    idleProcess.gEngine = none ∧ okPlatform.openResult = Result.OK ∧
    -2147483648 ≤ okPlatform.stream.framesPerBurst * 2 ∧
    okPlatform.stream.framesPerBurst * 2 < 2147483648 :=
  ⟨(start_result Real.sin Real.exp Real.pi (fun _ => 0) okPlatform idleProcess).1,
   (start_result Real.sin Real.exp Real.pi (fun _ => 0) okPlatform idleProcess).2.1,
   (start_result Real.sin Real.exp Real.pi (fun _ => 0) okPlatform idleProcess).2.2,
   rfl, rfl, by decide, by decide⟩

/-- C13: from every process state `nativeStop` leaves no engine instance, so
`nativeIsStreamHealthy` is false afterwards; without an engine it changes
nothing, and calling it twice gives the state one call gives. `stop()` on an
engine leaves the stream handle absent and changes nothing when the handle is
already absent. -/
theorem stop_idempotent {α : Type} (g : Process α) (e : MixerEngine α) :
    (nativeStop g).gEngine = none ∧
    (nativeStop g).gClickPending = g.gClickPending ∧
    nativeIsStreamHealthy (nativeStop g) = false ∧
    (g.gEngine = none → nativeStop g = g) ∧
    nativeStop (nativeStop g) = nativeStop g ∧
    e.stop.mStream = none ∧
    e.stop.isStreamHealthy = false ∧
    (e.mStream = none → e.stop = e) ∧
    e.stop.stop = e.stop := by
  have h1 : (nativeStop g).gEngine = none := by
    cases hg : g.gEngine with
    | none => simp only [nativeStop, hg]
    | some e0 => simp only [nativeStop, hg]
  have h2 : ∀ g1 : Process α, g1.gEngine = none → nativeStop g1 = g1 := by
    intro g1 hg
    simp only [nativeStop, hg]
  have h3 : e.stop.mStream = none := by
    unfold MixerEngine.stop
    cases hm : e.mStream with
    | none => simp only [hm]
    | some s => simp only
  have h4 : ∀ e1 : MixerEngine α, e1.mStream = none → e1.stop = e1 := by
    intro e1 hm
    simp only [MixerEngine.stop, hm]
  refine ⟨h1, ?_, ?_, h2 g, h2 _ h1, h3, ?_, h4 e, h4 _ h3⟩
  · cases hg : g.gEngine with
    | none => simp only [nativeStop, hg]
    | some e0 => simp only [nativeStop, hg]
  · simp only [nativeIsStreamHealthy, h1]
  · simp only [MixerEngine.isStreamHealthy, h3]

theorem stop_idempotent_witness :
    (nativeStop idleProcess).gEngine = none ∧
    (nativeStop idleProcess).gClickPending = idleProcess.gClickPending ∧
    nativeIsStreamHealthy (nativeStop idleProcess) = false ∧
    (idleProcess.gEngine = none → nativeStop idleProcess = idleProcess) ∧
    nativeStop (nativeStop idleProcess) = nativeStop idleProcess ∧
    sampleEngine.stop.mStream = none ∧
    sampleEngine.stop.isStreamHealthy = false ∧
    (sampleEngine.mStream = none → sampleEngine.stop = sampleEngine) ∧
    sampleEngine.stop.stop = sampleEngine.stop ∧
    idleProcess.gEngine = none ∧ sampleEngine.mStream = none :=
  ⟨(stop_idempotent idleProcess sampleEngine).1,
   (stop_idempotent idleProcess sampleEngine).2.1,
   (stop_idempotent idleProcess sampleEngine).2.2.1,
   (stop_idempotent idleProcess sampleEngine).2.2.2.1,
   (stop_idempotent idleProcess sampleEngine).2.2.2.2.1,
   (stop_idempotent idleProcess sampleEngine).2.2.2.2.2.1,
   (stop_idempotent idleProcess sampleEngine).2.2.2.2.2.2.1,
   (stop_idempotent idleProcess sampleEngine).2.2.2.2.2.2.2.1,
   (stop_idempotent idleProcess sampleEngine).2.2.2.2.2.2.2.2,
   rfl, rfl⟩

theorem nativeStop_engine {α : Type} (g : Process α) :
    nativeStop g = ⟨g.gClickPending, none⟩ := by
  cases hg : g.gEngine with
  | none =>
    simp only [nativeStop, hg]
    cases g
    simp_all
  | some e0 => simp only [nativeStop, hg]

/-- C17: when `nativeStart` is called with no instance and the platform
refuses the stream (`openStream` or `requestStart` does not give `OK`), the
call returns false and `gEngine` stays set; every later `nativeStart` then
returns false and changes nothing, whatever the platform would answer and
whatever callbacks and host calls came between, until `nativeStop` empties
`gEngine`; after that a `nativeStart` opens a stream again and its result is
the platform's answer. -/
theorem failed_start_retains {α : Type} [Add α] [Mul α] [Div α] [IntCast α] [OfScientific α]
    (tanh sin exp : α → α) (pi : α) (noise : Nat → α) (pf : Platform) (g : Process α)
    (hnone : g.gEngine = none)
    (hrefused : pf.openResult ≠ Result.OK ∨ pf.startResult ≠ Result.OK) :
    (nativeStart sin exp pi noise pf g).1 = false ∧
    (∃ e, (nativeStart sin exp pi noise pf g).2.gEngine = some e) ∧
    (∀ (noise1 : Nat → α) (pf1 : Platform),
      nativeStart sin exp pi noise1 pf1 (nativeStart sin exp pi noise pf g).2 =
        (false, (nativeStart sin exp pi noise pf g).2)) ∧
    (∀ (evs : List (Event α)) (g2 : Process α) (noise1 : Nat → α) (pf1 : Platform),
      run tanh (nativeStart sin exp pi noise pf g).2 evs = some g2 →
      nativeStart sin exp pi noise1 pf1 g2 = (false, g2)) ∧
    (nativeStop (nativeStart sin exp pi noise pf g).2).gEngine = none ∧
    (∀ (noise1 : Nat → α) (pf1 : Platform),
      ((nativeStart sin exp pi noise1 pf1
          (nativeStop (nativeStart sin exp pi noise pf g).2)).1 = true ↔
        pf1.openResult = Result.OK ∧ pf1.startResult = Result.OK) ∧
      (pf1.openResult = Result.OK →
        ∃ e1 s, (nativeStart sin exp pi noise1 pf1
            (nativeStop (nativeStart sin exp pi noise pf g).2)).2.gEngine = some e1 ∧
          e1.mStream = some s ∧ s.state = pf1.startState ∧
          s.framesPerBurst = pf1.stream.framesPerBurst)) := by
  have hfirst := nativeStart_of_none sin exp pi noise pf g hnone
  rw [hfirst]
  refine ⟨?_, ⟨_, rfl⟩, ?_, ?_, ?_, ?_⟩
  · have hiff := start_eq_true pf (MixerEngine.construct sin exp pi noise)
    cases hb : ((MixerEngine.construct sin exp pi noise).start pf).1 with
    | false => rfl
    | true =>
      obtain ⟨ho, hs⟩ := hiff.mp hb
      cases hrefused with
      | inl h => exact absurd ho h
      | inr h => exact absurd hs h
  · intro noise1 pf1
    exact nativeStart_of_engine sin exp pi noise1 pf1 _ _ rfl
  · intro evs g2 noise1 pf1 hrun
    obtain ⟨e2, he2⟩ := run_engine_some tanh evs _ g2 _ rfl hrun
    exact nativeStart_of_engine sin exp pi noise1 pf1 g2 e2 he2
  · rw [nativeStop_engine]
  · intro noise1 pf1
    rw [nativeStop_engine, nativeStart_of_none sin exp pi noise1 pf1 _ rfl]
    refine ⟨start_eq_true pf1 _, fun ho => ?_⟩
    exact ⟨_, _, rfl, start_stream pf1 _ ho, rfl, rfl⟩

theorem failed_start_retains_witness :
    ((nativeStart Real.sin Real.exp Real.pi (fun _ => 0) stalledPlatform idleProcess).1
        = false ∧
    (∃ e, (nativeStart Real.sin Real.exp Real.pi (fun _ => 0) stalledPlatform
        idleProcess).2.gEngine = some e) ∧
    (∀ (noise1 : Nat → ℝ) (pf1 : Platform),
      nativeStart Real.sin Real.exp Real.pi noise1 pf1
          (nativeStart Real.sin Real.exp Real.pi (fun _ => 0) stalledPlatform idleProcess).2 =
        (false,
          (nativeStart Real.sin Real.exp Real.pi (fun _ => 0) stalledPlatform idleProcess).2)) ∧
    (∀ (evs : List (Event ℝ)) (g2 : Process ℝ) (noise1 : Nat → ℝ) (pf1 : Platform),
      run Real.tanh
          (nativeStart Real.sin Real.exp Real.pi (fun _ => 0) stalledPlatform idleProcess).2
          evs = some g2 →
      nativeStart Real.sin Real.exp Real.pi noise1 pf1 g2 = (false, g2)) ∧
    (nativeStop
      (nativeStart Real.sin Real.exp Real.pi (fun _ => 0) stalledPlatform
        idleProcess).2).gEngine = none ∧
    (∀ (noise1 : Nat → ℝ) (pf1 : Platform),
      ((nativeStart Real.sin Real.exp Real.pi noise1 pf1
          (nativeStop (nativeStart Real.sin Real.exp Real.pi (fun _ => 0) stalledPlatform
            idleProcess).2)).1 = true ↔
        pf1.openResult = Result.OK ∧ pf1.startResult = Result.OK) ∧
      (pf1.openResult = Result.OK →
        ∃ e1 s, (nativeStart Real.sin Real.exp Real.pi noise1 pf1
            (nativeStop (nativeStart Real.sin Real.exp Real.pi (fun _ => 0) stalledPlatform
              idleProcess).2)).2.gEngine = some e1 ∧
          e1.mStream = some s ∧ s.state = pf1.startState ∧
          s.framesPerBurst = pf1.stream.framesPerBurst))) ∧
    idleProcess.gEngine = none ∧
    (stalledPlatform.openResult ≠ Result.OK ∨ stalledPlatform.startResult ≠ Result.OK) :=
  ⟨failed_start_retains Real.tanh Real.sin Real.exp Real.pi (fun _ => 0) stalledPlatform
    idleProcess rfl (Or.inr (by decide)), rfl, Or.inr (by decide)⟩

/-- Events that produce no frame (callbacks that are not valid, host calls)
leave a pending trigger pending and the engine's state predicate intact. -/
theorem run_no_frames {α : Type} [Add α] [Mul α] [OfScientific α] (tanh : α → α)
    (evs : List (Event α)) : ∀ (e : MixerEngine α), Inv e →
    (∀ ev ∈ evs, ev.frames = 0) →
    ∃ e1, run tanh ⟨true, some e⟩ evs = some ⟨true, some e1⟩ ∧ Inv e1 := by
  induction evs with
  | nil =>
    intro e h _
    exact ⟨e, rfl, h⟩
  | cons ev evs ih =>
    intro e h hev
    have hrest : ∀ x ∈ evs, x.frames = 0 := fun x hx => hev x (List.mem_cons_of_mem ev hx)
    have h0 := hev ev (List.mem_cons_self _ _)
    cases ev with
    | audioReady stream audioData numFrames =>
      have hv : ¬ ValidCallback stream audioData numFrames := by
        intro hv
        simp only [Event.frames, hv, if_true] at h0
        have := hv.1
        omega
      obtain ⟨e0, hstep, hinv, -⟩ := step_invalid tanh true e stream audioData numFrames hv
      obtain ⟨e1, hrun, hinv1⟩ := ih e0 (hinv h) hrest
      exact ⟨e1, by rw [run_cons tanh _ _ _ _ hstep]; exact hrun, hinv1⟩
    | playClick =>
      obtain ⟨e1, hrun, hinv1⟩ := ih e h hrest
      have hstep : step tanh ⟨true, some e⟩ Event.playClick = some ⟨true, some e⟩ := rfl
      exact ⟨e1, by rw [run_cons tanh _ _ _ _ hstep]; exact hrun, hinv1⟩
    | setBgmOn bgmOn =>
      obtain ⟨e1, hrun, hinv1⟩ := ih (e.setBgmOn bgmOn) h hrest
      have hstep : step tanh ⟨true, some e⟩ (Event.setBgmOn bgmOn) =
          some ⟨true, some (e.setBgmOn bgmOn)⟩ := rfl
      exact ⟨e1, by rw [run_cons tanh _ _ _ _ hstep]; exact hrun, hinv1⟩

/-- C18: `nativePlayClick` sets the pending flag whether or not an engine
exists, and `nativeStop`, `nativeStart` and the engine construction leave the
flag as it is; so after `nativePlayClick`, a `nativeStop` and a `nativeStart`
the flag is still set, and the first valid callback of the new engine,
whatever frameless callbacks and host calls precede it, consumes it and starts
the click at index `0`: after its `n` frames the click index is `min n 2400`
and the click is active iff `n < 2400`. -/
theorem pending_survives_restart {α : Type}
    [Add α] [Mul α] [Div α] [IntCast α] [OfScientific α]
    (tanh sin exp : α → α) (pi : α) (noise : Nat → α) (pf : Platform) (g : Process α)
    (evs0 : List (Event α)) (stream : AudioStream) (out : Nat → α) (numFrames : Int)
    (hn : 0 < numFrames) (hs : stream.state ≠ StreamState.Disconnected)
    (hpre : ∀ ev ∈ evs0, ev.frames = 0) :
    (nativePlayClick g).gClickPending = true ∧
    (nativePlayClick g).gEngine = g.gEngine ∧
    (nativeStop g).gClickPending = g.gClickPending ∧
    (nativeStart sin exp pi noise pf g).2.gClickPending = g.gClickPending ∧
    (nativeStart sin exp pi noise pf (nativeStop (nativePlayClick g))).2.gClickPending = true ∧
    ∃ e0 g1 e1,
      (nativeStart sin exp pi noise pf (nativeStop (nativePlayClick g))).2.gEngine = some e0 ∧
      e0.mClickActive = false ∧
      run tanh (nativeStart sin exp pi noise pf (nativeStop (nativePlayClick g))).2
        (evs0 ++ [Event.audioReady stream (some out) numFrames]) = some g1 ∧
      g1.gClickPending = false ∧ g1.gEngine = some e1 ∧
      (e1.mClickActive = true ↔ numFrames.toNat < 2400) ∧
      e1.mClickIndex = ((min numFrames.toNat 2400 : Nat) : Int) := by
  have hstop : nativeStop (nativePlayClick g) = ⟨true, none⟩ := by
    rw [nativeStop_engine]
    rfl
  have hstart := nativeStart_of_none sin exp pi noise pf (⟨true, none⟩ : Process α) rfl
  refine ⟨rfl, rfl, by rw [nativeStop_engine], ?_, ?_, ?_⟩
  · cases hg : g.gEngine with
    | some e => rw [nativeStart_of_engine sin exp pi noise pf g e hg]
    | none => rw [nativeStart_of_none sin exp pi noise pf g hg]
  · rw [hstop, hstart]
  · rw [hstop, hstart]
    have hinv := inv_start pf _ (inv_construct sin exp pi noise)
    obtain ⟨e1, hrun, hinv1⟩ := run_no_frames tanh evs0 _ hinv hpre
    have hv : ValidCallback stream (some out) numFrames := ⟨hn, rfl, hs⟩
    have hstep := step_valid tanh true e1 stream (some out) numFrames hv hinv1
    refine ⟨_, ⟨false, some (advance (consumeTrigger e1 true) numFrames.toNat)⟩, _, rfl, ?_,
      ?_, rfl, rfl, ?_, ?_⟩
    · unfold MixerEngine.start
      split <;> rfl
    · rw [run_append tanh _ _ _ _ hrun, run_cons tanh _ _ _ _ hstep]
      rfl
    · simp only [consumeTrigger, advance, if_true, Bool.true_and, decide_eq_true_eq,
        kClickLen_cast]
      omega
    · simp only [consumeTrigger, advance, if_true, kClickLen_cast]
      omega

theorem pending_survives_restart_witness :
    (nativePlayClick idleProcess).gClickPending = true ∧
    (nativePlayClick idleProcess).gEngine = idleProcess.gEngine ∧
    (nativeStop idleProcess).gClickPending = idleProcess.gClickPending ∧
    (nativeStart Real.sin Real.exp Real.pi (fun _ => 0) okPlatform
      idleProcess).2.gClickPending = idleProcess.gClickPending ∧
    (nativeStart Real.sin Real.exp Real.pi (fun _ => 0) okPlatform
      (nativeStop (nativePlayClick idleProcess))).2.gClickPending = true ∧
    ∃ e0 g1 e1,
      (nativeStart Real.sin Real.exp Real.pi (fun _ => 0) okPlatform
        (nativeStop (nativePlayClick idleProcess))).2.gEngine = some e0 ∧
      e0.mClickActive = false ∧
      run Real.tanh (nativeStart Real.sin Real.exp Real.pi (fun _ => 0) okPlatform
          (nativeStop (nativePlayClick idleProcess))).2
        ([Event.audioReady startedStream none 192, Event.setBgmOn false] ++
          [Event.audioReady startedStream (some (fun _ => 0)) 192]) = some g1 ∧
      g1.gClickPending = false ∧ g1.gEngine = some e1 ∧
      (e1.mClickActive = true ↔ (192 : Int).toNat < 2400) ∧
      e1.mClickIndex = ((min (192 : Int).toNat 2400 : Nat) : Int) :=
  pending_survives_restart Real.tanh Real.sin Real.exp Real.pi (fun _ => 0) okPlatform
    idleProcess [Event.audioReady startedStream none 192, Event.setBgmOn false]
    startedStream (fun _ => 0) 192 (by decide) (by decide) (by
      intro ev hev
      simp only [List.mem_cons, List.mem_singleton, List.not_mem_nil, or_false] at hev
      cases hev with
      | inl h => rw [h]; decide
      | inr h => rw [h]; rfl)

/-! ## The bgm flag -/

theorem advance_click_setBgmOn {α : Type} (e : MixerEngine α) (b p : Bool) (i : Nat) :
    (advance (consumeTrigger (e.setBgmOn b) p) i).mClickActive =
      (advance (consumeTrigger e p) i).mClickActive ∧
    (advance (consumeTrigger (e.setBgmOn b) p) i).mClickIndex =
      (advance (consumeTrigger e p) i).mClickIndex ∧
    (advance (consumeTrigger (e.setBgmOn b) p) i).mClick = e.mClick ∧
    (advance (consumeTrigger (e.setBgmOn b) p) i).mBgmOn = b := by
  cases p <;> exact ⟨rfl, rfl, rfl, rfl⟩

theorem advance_bgm_consumeTrigger {α : Type} (e : MixerEngine α) (p : Bool) (n : Nat) :
    (advance (consumeTrigger e p) n).mBgmIndex =
      if e.mBgmOn then (e.mBgmIndex + (n : Int)) % 48000 else e.mBgmIndex := by
  cases p <;> rfl

/-- A callback that is not valid returns and leaves the cursors and the flag
as they were. -/
theorem onAudioReady_invalid {α : Type} [Add α] [Mul α] [OfScientific α] (tanh : α → α)
    (e : MixerEngine α) (p : Bool) (stream : AudioStream) (audioData : Option (Nat → α))
    (numFrames : Int) (hv : ¬ ValidCallback stream audioData numFrames) :
    ∃ r, e.onAudioReady tanh p stream audioData numFrames = some r ∧
      r.pending = p ∧ r.audioData = audioData ∧ r.engine.mBgmIndex = e.mBgmIndex ∧
      r.engine.mClickIndex = e.mClickIndex ∧ r.engine.mClickActive = e.mClickActive := by
  cases audioData with
  | none => exact ⟨⟨DataCallbackResult.Continue, e, p, none⟩, rfl, rfl, rfl, rfl, rfl, rfl⟩
  | some out =>
    by_cases hn : numFrames ≤ 0
    · refine ⟨⟨DataCallbackResult.Continue, e, p, some out⟩, ?_, rfl, rfl, rfl, rfl, rfl⟩
      simp only [MixerEngine.onAudioReady, hn, if_true]
    · by_cases hs : stream.state = StreamState.Disconnected
      · refine ⟨⟨DataCallbackResult.Stop, { e with mStream := none }, p, some out⟩, ?_,
          rfl, rfl, rfl, rfl, rfl⟩
        simp only [MixerEngine.onAudioReady, hn, hs, if_true, if_false]
      · exact absurd ⟨by omega, rfl, hs⟩ hv

/-- C19: a valid callback of `n` frames run with bgm disabled leaves the bgm
cursor where it was; and after any callback the bgm cursor is a function of
its value before, the bgm flag and the callback's frame count (`(c + n) mod
48000` for a valid callback with bgm enabled, else `c`): two engines with the
same bgm cursor and flag end with the same cursor whatever their click states,
tables and pending triggers. -/
theorem bgm_cursor_frame {α : Type} [Add α] [Mul α] [OfScientific α] (tanh : α → α)
    (e1 e2 : MixerEngine α) (p1 p2 : Bool) (stream : AudioStream)
    (audioData1 audioData2 : Option (Nat → α)) (numFrames : Int)
    (h1 : Inv e1) (h2 : Inv e2) (hidx : e2.mBgmIndex = e1.mBgmIndex)
    (hon : e2.mBgmOn = e1.mBgmOn) (hbuf : audioData2.isSome = audioData1.isSome) :
    ∃ r1 r2, e1.onAudioReady tanh p1 stream audioData1 numFrames = some r1 ∧
      e2.onAudioReady tanh p2 stream audioData2 numFrames = some r2 ∧
      r1.engine.mBgmIndex =
        (if ValidCallback stream audioData1 numFrames ∧ e1.mBgmOn = true then
          (e1.mBgmIndex + numFrames) % 48000 else e1.mBgmIndex) ∧
      r2.engine.mBgmIndex = r1.engine.mBgmIndex ∧
      (e1.mBgmOn = false → r1.engine.mBgmIndex = e1.mBgmIndex) := by
  have key : ∀ (e : MixerEngine α) (p : Bool) (audioData : Option (Nat → α)), Inv e →
      ∃ r, e.onAudioReady tanh p stream audioData numFrames = some r ∧
        r.engine.mBgmIndex =
          (if ValidCallback stream audioData numFrames ∧ e.mBgmOn = true then
            (e.mBgmIndex + numFrames) % 48000 else e.mBgmIndex) := by
    intro e p audioData h
    by_cases hv : ValidCallback stream audioData numFrames
    · obtain ⟨hn, hd, hs⟩ := hv
      cases audioData with
      | none => simp at hd
      | some out =>
        obtain ⟨out1, hcall, -⟩ := onAudioReady_valid tanh e p stream out numFrames hn hs h
        refine ⟨_, hcall, ?_⟩
        have hv1 : ValidCallback stream (some out) numFrames := ⟨hn, rfl, hs⟩
        simp only [advance_bgm_consumeTrigger, hv1, true_and]
        have hcast : ((numFrames.toNat : Nat) : Int) = numFrames := Int.toNat_of_nonneg (by omega)
        rw [hcast]
    · obtain ⟨r, hcall, -, -, hb, -, -⟩ :=
        onAudioReady_invalid tanh e p stream audioData numFrames hv
      exact ⟨r, hcall, by simp only [hb, hv, false_and, if_false]⟩
  obtain ⟨r1, hc1, hb1⟩ := key e1 p1 audioData1 h1
  obtain ⟨r2, hc2, hb2⟩ := key e2 p2 audioData2 h2
  have hvalid : ValidCallback stream audioData2 numFrames ↔
      ValidCallback stream audioData1 numFrames := by
    simp only [ValidCallback, hbuf]
  refine ⟨r1, r2, hc1, hc2, hb1, ?_, ?_⟩
  · rw [hb1, hb2, hidx, hon]
    simp only [hvalid]
  · intro hoff
    rw [hb1]
    simp [hoff]

theorem bgm_cursor_frame_witness :
    ∃ r1 r2, busyEngine.onAudioReady Real.tanh true startedStream (some (fun _ => 0)) 960
        = some r1 ∧
      MixerEngine.onAudioReady Real.tanh
        { sampleEngine with mBgmIndex := 47999 } false startedStream (some (fun _ => 1)) 960
        = some r2 ∧
      r1.engine.mBgmIndex =
        (if ValidCallback startedStream (some (fun _ => (0 : ℝ))) 960 ∧
            busyEngine.mBgmOn = true then
          (busyEngine.mBgmIndex + 960) % 48000 else busyEngine.mBgmIndex) ∧
      r2.engine.mBgmIndex = r1.engine.mBgmIndex ∧
      (busyEngine.mBgmOn = false → r1.engine.mBgmIndex = busyEngine.mBgmIndex) :=
  bgm_cursor_frame Real.tanh busyEngine { sampleEngine with mBgmIndex := 47999 } true false
    startedStream (some (fun _ => 0)) (some (fun _ => 1)) 960 (by decide) (by decide)
    rfl rfl rfl

/-- C14: with bgm disabled (`setBgmOn false`) every sample of a valid callback
is `tanh (0.8 * 0.9 * clickTable[clickCursor])` when the click is active at
that sample and `0` when it is not, the click state at sample `i` being the
one reached after the `i` preceding samples, so that neither the bgm table nor
the bgm cursor enters; and the callback leaves the click cursor and the
click-active flag exactly as the same callback with bgm enabled does. -/
theorem bgm_off_samples (e : MixerEngine ℝ) (pending : Bool) (stream : AudioStream)
    (out : Nat → ℝ) (numFrames : Int) (hn : 0 < numFrames)
    (hs : stream.state ≠ StreamState.Disconnected) (h : Inv e) :
    ∃ rOff rOn out1,
      (e.setBgmOn false).onAudioReady Real.tanh pending stream (some out) numFrames
        = some rOff ∧
      (e.setBgmOn true).onAudioReady Real.tanh pending stream (some out) numFrames
        = some rOn ∧
      rOff.audioData = some out1 ∧
      (∀ i : Nat, (i : Int) < numFrames →
        ((advance (consumeTrigger e pending) i).mClickActive = true →
          ∃ c, tableRead e.mClick (advance (consumeTrigger e pending) i).mClickIndex = some c ∧
            out1 i = Real.tanh (0.8 * 0.9 * c)) ∧
        ((advance (consumeTrigger e pending) i).mClickActive = false → out1 i = 0)) ∧
      rOff.engine.mClickIndex = rOn.engine.mClickIndex ∧
      rOff.engine.mClickActive = rOn.engine.mClickActive ∧
      rOff.engine.mBgmIndex = e.mBgmIndex := by
  have hoff : Inv (e.setBgmOn false) := h
  have hon : Inv (e.setBgmOn true) := h
  have hi := inv_consumeTrigger (e.setBgmOn false) pending hoff
  obtain ⟨out1, hcall, hrun⟩ :=
    onAudioReady_valid Real.tanh (e.setBgmOn false) pending stream out numFrames hn hs hoff
  obtain ⟨out3, hcallOn, -⟩ :=
    onAudioReady_valid Real.tanh (e.setBgmOn true) pending stream out numFrames hn hs hon
  obtain ⟨out2, hrun2, -, hval⟩ :=
    mixLoop_spec Real.tanh numFrames.toNat 0 (consumeTrigger (e.setBgmOn false) pending) out hi
  rw [hrun] at hrun2
  simp only [Option.some.injEq, Prod.mk.injEq, true_and] at hrun2
  subst hrun2
  refine ⟨_, _, out1, hcall, hcallOn, rfl, ?_, ?_, ?_, ?_⟩
  · intro i hlt
    obtain ⟨s, hm, hv⟩ := hval i (by omega)
    obtain ⟨b, c, hb, hc, hsum⟩ := mixFrame_sum _ _ s (inv_advance _ i hi) hm
    obtain ⟨hca, hci, hct, hbo⟩ := advance_click_setBgmOn e false pending i
    rw [Nat.zero_add] at hv
    have hb0 : b = 0 := by
      simp only [bgmTerm, hbo, Bool.false_eq_true, if_false, Option.some.injEq] at hb
      exact hb.symm
    simp only [clickTerm, hca, hci, hct] at hc
    constructor
    · intro hact
      simp only [hact, if_true, Option.map_eq_some'] at hc
      obtain ⟨c0, hread, hc0⟩ := hc
      refine ⟨c0, hread, ?_⟩
      rw [hv, hsum, hb0, ← hc0]
      congr 1
      ring
    · intro hact
      simp only [hact, Bool.false_eq_true, if_false, Option.some.injEq] at hc
      rw [hv, hsum, hb0, ← hc]
      simp
  · exact (advance_click_setBgmOn e false pending _).2.1.trans
      (advance_click_setBgmOn e true pending _).2.1.symm
  · exact (advance_click_setBgmOn e false pending _).1.trans
      (advance_click_setBgmOn e true pending _).1.symm
  · simp only [advance_bgm_consumeTrigger]
    rfl

theorem bgm_off_samples_witness :
    ∃ rOff rOn out1,
      (busyEngine.setBgmOn false).onAudioReady Real.tanh false startedStream
        (some (fun _ => 3)) 8 = some rOff ∧
      (busyEngine.setBgmOn true).onAudioReady Real.tanh false startedStream
        (some (fun _ => 3)) 8 = some rOn ∧
      rOff.audioData = some out1 ∧
      (∀ i : Nat, (i : Int) < 8 →
        ((advance (consumeTrigger busyEngine false) i).mClickActive = true →
          ∃ c, tableRead busyEngine.mClick
              (advance (consumeTrigger busyEngine false) i).mClickIndex = some c ∧
            out1 i = Real.tanh (0.8 * 0.9 * c)) ∧
        ((advance (consumeTrigger busyEngine false) i).mClickActive = false → out1 i = 0)) ∧
      rOff.engine.mClickIndex = rOn.engine.mClickIndex ∧
      rOff.engine.mClickActive = rOn.engine.mClickActive ∧
      rOff.engine.mBgmIndex = busyEngine.mBgmIndex :=
  bgm_off_samples busyEngine false startedStream (fun _ => 3) 8 (by decide) (by decide)
    (by decide)

/-! ## The click table -/

theorem generateClick_apply (i : Fin kClickLen) :
    generateClick Real.sin Real.exp Real.pi i =
      Real.sin (2 * Real.pi * 2000 * ((i : Nat) : ℝ) / 48000) *
        Real.exp (-((i : Nat) : ℝ) / 200) := by
  simp only [generateClick, clickEnvelope]
  push_cast
  norm_num

theorem clickEnvelope_apply (i : Int) :
    clickEnvelope Real.exp i = Real.exp (-(i : ℝ) / 200) := by
  simp only [clickEnvelope]
  push_cast
  norm_num

/-- C15: the click table has `48000 * 50 / 1000 = 2400 = 48000 * 0.05`
entries; it is generated from the constants alone (the noise drawn for the bgm
table does not enter); entry `i` is `sin (2π·2000·i/48000) * exp (-i/200)`;
entry `0` is `0`; and the envelope `exp (-i/200)` is strictly decreasing in
`i`. -/
theorem click_table :
    kClickLen = 2400 ∧ kClickLen = kSampleRate * kClickDurMs / 1000 ∧
    ((kClickLen : Nat) : ℝ) = ((kSampleRate : Nat) : ℝ) * 0.05 ∧
    (∀ noise1 noise2 : Nat → ℝ,
      (MixerEngine.construct Real.sin Real.exp Real.pi noise1).mClick =
        (MixerEngine.construct Real.sin Real.exp Real.pi noise2).mClick ∧
      (MixerEngine.construct Real.sin Real.exp Real.pi noise1).mClick =
        generateClick Real.sin Real.exp Real.pi) ∧
    (∀ i : Fin kClickLen,
      generateClick Real.sin Real.exp Real.pi i =
        Real.sin (2 * Real.pi * 2000 * ((i : Nat) : ℝ) / 48000) *
          Real.exp (-((i : Nat) : ℝ) / 200) ∧
      generateClick Real.sin Real.exp Real.pi i =
        Real.sin (2 * Real.pi * 2000 * ((i : Nat) : ℝ) / 48000) *
          clickEnvelope Real.exp ((i : Nat) : Int)) ∧
    generateClick Real.sin Real.exp Real.pi ⟨0, by decide⟩ = 0 ∧
    (∀ i j : Int, i < j → clickEnvelope Real.exp j < clickEnvelope Real.exp i) := by
  refine ⟨rfl, rfl, ?_, fun _ _ => ⟨rfl, rfl⟩, fun i => ⟨generateClick_apply i, ?_⟩, ?_, ?_⟩
  · norm_num
  · rw [generateClick_apply, clickEnvelope_apply]
    push_cast
    rfl
  · rw [generateClick_apply]
    simp
  · intro i j hij
    rw [clickEnvelope_apply, clickEnvelope_apply, Real.exp_lt_exp]
    have : (i : ℝ) < (j : ℝ) := by exact_mod_cast hij
    linarith

theorem click_table_witness :
    clickEnvelope Real.exp 1 < clickEnvelope Real.exp 0 ∧ (0 : Int) < 1 :=
  ⟨click_table.2.2.2.2.2.2 0 1 (by decide), by decide⟩

/-! ## The sample stream of a run -/

/-- The samples of a run of valid callbacks: sample `k` of the run is
`tanh (s * 0.8)` for the sum `s` computed in the state reached `k` samples
after the trigger consumption, however the frames are split into callbacks. -/
theorem samplesOf_spec {α : Type} [Add α] [Mul α] [OfScientific α] (tanh : α → α)
    (evs : List (Event α)) : ∀ (p : Bool) (e : MixerEngine α), Inv e →
    (∀ ev ∈ evs, ev.IsValid) →
    ∃ l, samplesOf tanh ⟨p, some e⟩ evs = some l ∧ l.length = framesProcessed evs ∧
      ∀ k, k < framesProcessed evs →
        ∃ s, mixFrame (advance (consumeTrigger e p) k) =
            some (advance (consumeTrigger e p) (k + 1), s) ∧
          l[k]? = some (tanh (s * 0.8)) := by
  induction evs with
  | nil =>
    intro p e _ _
    exact ⟨[], rfl, rfl, fun k hk => absurd hk (Nat.not_lt_zero k)⟩
  | cons ev evs ih =>
    intro p e h hev
    have hrest : ∀ x ∈ evs, x.IsValid := fun x hx => hev x (List.mem_cons_of_mem ev hx)
    have h0 := hev ev (List.mem_cons_self _ _)
    cases ev with
    | playClick => exact absurd h0 id
    | setBgmOn bgmOn => exact absurd h0 id
    | audioReady stream audioData numFrames =>
      have hv : ValidCallback stream audioData numFrames := h0
      obtain ⟨hn, hd, hs⟩ := hv
      cases audioData with
      | none => simp at hd
      | some out =>
        have hv1 : ValidCallback stream (some out) numFrames := ⟨hn, rfl, hs⟩
        have hi := inv_consumeTrigger e p h
        have hstep := step_valid tanh p e stream (some out) numFrames hv1 h
        obtain ⟨out1, hcall, hloop⟩ :=
          onAudioReady_valid tanh e p stream out numFrames hn hs h
        obtain ⟨out2, hloop2, -, hval⟩ :=
          mixLoop_spec tanh numFrames.toNat 0 (consumeTrigger e p) out hi
        rw [hloop] at hloop2
        simp only [Option.some.injEq, Prod.mk.injEq, true_and] at hloop2
        subst hloop2
        obtain ⟨rest, hrest1, hlen, hvals⟩ :=
          ih false (advance (consumeTrigger e p) numFrames.toNat)
            (inv_advance _ _ hi) hrest
        have hsamples : eventSamples tanh ⟨p, some e⟩
            (Event.audioReady stream (some out) numFrames) =
            (List.range numFrames.toNat).map out1 := by
          simp only [eventSamples, hv1, if_true, hcall]
        have hlen1 : ((List.range numFrames.toNat).map out1).length = numFrames.toNat := by
          simp only [List.length_map, List.length_range]
        have hfr : framesProcessed (Event.audioReady stream (some out) numFrames :: evs) =
            numFrames.toNat + framesProcessed evs := by
          simp only [framesProcessed, Event.frames, hv1, if_true]
        refine ⟨(List.range numFrames.toNat).map out1 ++ rest, ?_, ?_, ?_⟩
        · simp only [samplesOf, hstep, hrest1, hsamples]
        · rw [List.length_append, hlen1, hlen, hfr]
        · intro k hk
          rw [hfr] at hk
          by_cases hlt : k < numFrames.toNat
          · obtain ⟨s, hm, hout⟩ := hval k hlt
            refine ⟨s, hm, ?_⟩
            rw [List.getElem?_append_left (by rw [hlen1]; exact hlt), List.getElem?_map,
              List.getElem?_range hlt, Option.map_some', ← hout, Nat.zero_add]
          · obtain ⟨s, hm, hout⟩ := hvals (k - numFrames.toNat) (by omega)
            have hc : consumeTrigger (advance (consumeTrigger e p) numFrames.toNat) false =
                advance (consumeTrigger e p) numFrames.toNat := rfl
            rw [hc, advance_add _ _ _ hi, advance_add _ _ _ hi] at hm
            have e1 : numFrames.toNat + (k - numFrames.toNat) = k := by omega
            have e2 : numFrames.toNat + (k - numFrames.toNat + 1) = k + 1 := by omega
            rw [e1, e2] at hm
            refine ⟨s, hm, ?_⟩
            rw [List.getElem?_append_right (by rw [hlen1]; omega), hlen1]
            exact hout

/-- The bgm cursor after a run of valid callbacks. -/
theorem run_valid_bgm {α : Type} [Add α] [Mul α] [OfScientific α] (tanh : α → α)
    (evs : List (Event α)) : ∀ (p : Bool) (e : MixerEngine α), Inv e →
    (∀ ev ∈ evs, ev.IsValid) →
    ∃ p1 e1, run tanh ⟨p, some e⟩ evs = some ⟨p1, some e1⟩ ∧ e1.mBgmOn = e.mBgmOn ∧
      e1.mBgmIndex = (if e.mBgmOn then (e.mBgmIndex + (framesProcessed evs : Int)) % 48000
        else e.mBgmIndex) := by
  induction evs with
  | nil =>
    intro p e h _
    refine ⟨p, e, rfl, rfl, ?_⟩
    obtain ⟨⟨h0, h1⟩, -⟩ := h
    simp only [kBgmCycle_cast] at h1
    simp only [framesProcessed]
    split
    · omega
    · rfl
  | cons ev evs ih =>
    intro p e h hev
    have hrest : ∀ x ∈ evs, x.IsValid := fun x hx => hev x (List.mem_cons_of_mem ev hx)
    have h0 := hev ev (List.mem_cons_self _ _)
    cases ev with
    | playClick => exact absurd h0 id
    | setBgmOn bgmOn => exact absurd h0 id
    | audioReady stream audioData numFrames =>
      have hv : ValidCallback stream audioData numFrames := h0
      have hstep := step_valid tanh p e stream audioData numFrames hv h
      have hinv := inv_advance _ numFrames.toNat (inv_consumeTrigger e p h)
      obtain ⟨p1, e1, hrun, hon, hidx⟩ := ih false _ hinv hrest
      have hon0 : (advance (consumeTrigger e p) numFrames.toNat).mBgmOn = e.mBgmOn := by
        cases p <;> rfl
      refine ⟨p1, e1, ?_, hon.trans hon0, ?_⟩
      · rw [run_cons tanh _ _ _ _ hstep]
        exact hrun
      · rw [hidx, hon0, advance_bgm_consumeTrigger]
        simp only [framesProcessed, Event.frames, hv, if_true]
        split
        · push_cast
          omega
        · rfl

theorem tanh_injective (a b : ℝ) (h : Real.tanh a = Real.tanh b) : a = b := by
  rw [Real.tanh_eq_sinh_div_cosh, Real.tanh_eq_sinh_div_cosh,
    div_eq_div_iff (ne_of_gt (Real.cosh_pos a)) (ne_of_gt (Real.cosh_pos b))] at h
  have hs : Real.sinh (a - b) = Real.sinh 0 := by
    rw [Real.sinh_sub, Real.sinh_zero]
    linarith
  have := Real.sinh_injective hs
  linarith

theorem tableRead_nat {α : Type} {n : Nat} (tbl : Fin n → α) (k : Nat) (hk : k < n) :
    tableRead tbl (k : Int) = some (tbl ⟨k, hk⟩) := by
  unfold tableRead
  rw [dif_pos ⟨by omega, by omega⟩]
  simp

theorem bgmTerm_advance (e : MixerEngine ℝ) (p : Bool) (k : Nat) :
    bgmTerm (advance (consumeTrigger e p) k) =
      if e.mBgmOn then
        (tableRead e.mBgm ((e.mBgmIndex + (k : Int)) % 48000)).map (fun b => b * 0.005)
      else some 0 := by
  cases p <;> cases hb : e.mBgmOn <;>
    simp [bgmTerm, advance, consumeTrigger, hb]

theorem clickTerm_after_trigger (e : MixerEngine ℝ) (k : Nat) :
    clickTerm (advance (consumeTrigger e true) k) =
      if h : k < kClickLen then some (e.mClick ⟨k, h⟩ * 0.9) else some 0 := by
  by_cases h : k < kClickLen
  · have h1 : ((0 : Int) + (k : Int) < 2400) := by
      have : k < 2400 := h
      omega
    have h2 : min ((0 : Int) + (k : Int)) 2400 = (k : Int) := by omega
    simp only [clickTerm, advance, consumeTrigger, if_true, Bool.true_and, kClickLen_cast, h1,
      decide_True, h2, tableRead_nat e.mClick k h, Option.map_some', dif_pos h]
  · have h1 : ¬ ((0 : Int) + (k : Int) < 2400) := by
      have : ¬ k < 2400 := h
      omega
    simp only [clickTerm, advance, consumeTrigger, if_true, Bool.true_and, kClickLen_cast, h1,
      decide_False, Bool.false_eq_true, if_false, dif_neg h]

theorem clickTerm_silenced (e : MixerEngine ℝ) (k : Nat) :
    clickTerm (advance (consumeTrigger { e with mClickActive := false } false) k) = some 0 := by
  simp [clickTerm, advance, consumeTrigger]

/-- Sample `k` of a run of valid callbacks over the reals. -/
theorem samplesOf_real (evs : List (Event ℝ)) (p : Bool) (e : MixerEngine ℝ) (h : Inv e)
    (hev : ∀ ev ∈ evs, ev.IsValid) :
    ∃ l, samplesOf Real.tanh ⟨p, some e⟩ evs = some l ∧ l.length = framesProcessed evs ∧
      ∀ k, k < framesProcessed evs →
        ∃ b c, bgmTerm (advance (consumeTrigger e p) k) = some b ∧
          clickTerm (advance (consumeTrigger e p) k) = some c ∧
          l[k]? = some (Real.tanh (0.8 * (b + c))) := by
  obtain ⟨l, hl, hlen, hval⟩ := samplesOf_spec Real.tanh evs p e h hev
  refine ⟨l, hl, hlen, fun k hk => ?_⟩
  obtain ⟨s, hm, hout⟩ := hval k hk
  obtain ⟨b, c, hb, hc, hsum⟩ :=
    mixFrame_sum _ _ s (inv_advance _ k (inv_consumeTrigger e p h)) hm
  exact ⟨b, c, hb, hc, by rw [hout, hsum, mul_comm]⟩

theorem generateClick_six :
    generateClick Real.sin Real.exp Real.pi ⟨6, by decide⟩ = Real.exp (-6 / 200) := by
  rw [generateClick_apply]
  have h : 2 * Real.pi * 2000 * ((6 : Nat) : ℝ) / 48000 = Real.pi / 2 := by
    push_cast
    ring
  simp only [h, Real.sin_pi_div_two, one_mul]
  push_cast
  rfl

/-- C16: take an engine whose click table is the generated one and a run of
valid callbacks, the first of which consumes a pending trigger, and compare it
with the same run without the click (no trigger, click inactive). Entry `6` of
the click table is `sin (π/2) * exp (-6/200) = exp (-6/200)`, and sample `6` of
the two runs differs; every sample from the `2400`th on is the same in both
runs and equals `tanh (0.8 * 0.005 * bgmTable[(c + k) mod 48000])` when bgm is
enabled and `0` when it is disabled; and both runs end with the same bgm
cursor. -/
theorem click_scenario (e : MixerEngine ℝ) (evs : List (Event ℝ)) (h : Inv e)
    (hclick : e.mClick = generateClick Real.sin Real.exp Real.pi)
    (hev : ∀ ev ∈ evs, ev.IsValid) :
    ∃ (withClick baseline : List ℝ) (g1 g2 : Process ℝ) (e1 e2 : MixerEngine ℝ),
      samplesOf Real.tanh ⟨true, some e⟩ evs = some withClick ∧
      samplesOf Real.tanh ⟨false, some { e with mClickActive := false }⟩ evs = some baseline ∧
      withClick.length = framesProcessed evs ∧
      baseline.length = framesProcessed evs ∧
      generateClick Real.sin Real.exp Real.pi ⟨6, by decide⟩ = Real.exp (-6 / 200) ∧
      (6 < framesProcessed evs → withClick[6]? ≠ baseline[6]?) ∧
      (∀ k, 2400 ≤ k → k < framesProcessed evs →
        ∃ v, withClick[k]? = some v ∧ baseline[k]? = some v ∧
          (e.mBgmOn = true →
            ∃ b, tableRead e.mBgm ((e.mBgmIndex + (k : Int)) % 48000) = some b ∧
              v = Real.tanh (0.8 * 0.005 * b)) ∧
          (e.mBgmOn = false → v = 0)) ∧
      run Real.tanh ⟨true, some e⟩ evs = some g1 ∧
      run Real.tanh ⟨false, some { e with mClickActive := false }⟩ evs = some g2 ∧
      g1.gEngine = some e1 ∧ g2.gEngine = some e2 ∧ e1.mBgmIndex = e2.mBgmIndex := by
  have h0 : Inv { e with mClickActive := false } :=
    ⟨h.1, fun hc => absurd hc (by simp)⟩
  obtain ⟨lw, hlw, hlenw, hvalw⟩ := samplesOf_real evs true e h hev
  obtain ⟨lb, hlb, hlenb, hvalb⟩ := samplesOf_real evs false _ h0 hev
  obtain ⟨p1, e1, hrun1, -, hidx1⟩ := run_valid_bgm Real.tanh evs true e h hev
  obtain ⟨p2, e2, hrun2, -, hidx2⟩ := run_valid_bgm Real.tanh evs false _ h0 hev
  refine ⟨lw, lb, ⟨p1, some e1⟩, ⟨p2, some e2⟩, e1, e2, hlw, hlb, hlenw, hlenb,
    generateClick_six, ?_, ?_, hrun1, hrun2, rfl, rfl, ?_⟩
  · intro h6
    obtain ⟨b, c, hb, hc, hw⟩ := hvalw 6 h6
    obtain ⟨b0, c0, hb0, hc0, hbase⟩ := hvalb 6 h6
    rw [bgmTerm_advance] at hb hb0
    have hbb : b0 = b := by
      have : some b0 = some b := hb0.symm.trans hb
      exact Option.some.inj this
    rw [clickTerm_silenced, Option.some.injEq] at hc0
    rw [clickTerm_after_trigger, dif_pos (by decide), Option.some.injEq, hclick,
      generateClick_six] at hc
    rw [hw, hbase, hbb, ← hc0, ← hc]
    intro heq
    have h1 := tanh_injective _ _ (Option.some.inj heq)
    have hpos : 0 < Real.exp (-6 / 200) := Real.exp_pos _
    nlinarith
  · intro k hk hlt
    obtain ⟨b, c, hb, hc, hw⟩ := hvalw k hlt
    obtain ⟨b0, c0, hb0, hc0, hbase⟩ := hvalb k hlt
    rw [bgmTerm_advance] at hb hb0
    have hbb : b0 = b := by
      have : some b0 = some b := hb0.symm.trans hb
      exact Option.some.inj this
    rw [clickTerm_silenced, Option.some.injEq] at hc0
    have hk1 : ¬ k < kClickLen := by
      have : ¬ k < 2400 := by omega
      exact this
    rw [clickTerm_after_trigger, dif_neg hk1, Option.some.injEq] at hc
    refine ⟨Real.tanh (0.8 * (b + c)), hw, ?_, ?_, ?_⟩
    · rw [hbase, hbb, ← hc0, ← hc]
    · intro hon
      simp only [hon, if_true, Option.map_eq_some'] at hb
      obtain ⟨x, hx, hxb⟩ := hb
      refine ⟨x, hx, ?_⟩
      rw [← hxb, ← hc]
      congr 1
      ring
    · intro hoff
      simp only [hoff, Bool.false_eq_true, if_false, Option.some.injEq] at hb
      rw [← hb, ← hc]
      simp
  · rw [hidx1, hidx2]

theorem click_scenario_witness :
    ∃ (withClick baseline : List ℝ) (g1 g2 : Process ℝ) (e1 e2 : MixerEngine ℝ),
      samplesOf Real.tanh ⟨true, some (MixerEngine.construct Real.sin Real.exp Real.pi (fun _ => 1))⟩
        [Event.audioReady startedStream (some (fun _ => 0)) 1000,
         Event.audioReady startedStream (some (fun _ => 0)) 2000] = some withClick ∧
      samplesOf Real.tanh ⟨false, some { MixerEngine.construct Real.sin Real.exp Real.pi (fun _ => 1) with
          mClickActive := false }⟩
        [Event.audioReady startedStream (some (fun _ => 0)) 1000,
         Event.audioReady startedStream (some (fun _ => 0)) 2000] = some baseline ∧
      withClick.length = framesProcessed
        [Event.audioReady startedStream (some (fun _ => (0 : ℝ))) 1000,
         Event.audioReady startedStream (some (fun _ => 0)) 2000] ∧
      baseline.length = framesProcessed
        [Event.audioReady startedStream (some (fun _ => (0 : ℝ))) 1000,
         Event.audioReady startedStream (some (fun _ => 0)) 2000] ∧
      generateClick Real.sin Real.exp Real.pi ⟨6, by decide⟩ = Real.exp (-6 / 200) ∧
      (6 < framesProcessed
        [Event.audioReady startedStream (some (fun _ => (0 : ℝ))) 1000,
         Event.audioReady startedStream (some (fun _ => 0)) 2000] →
        withClick[6]? ≠ baseline[6]?) ∧
      (∀ k, 2400 ≤ k → k < framesProcessed
        [Event.audioReady startedStream (some (fun _ => (0 : ℝ))) 1000,
         Event.audioReady startedStream (some (fun _ => 0)) 2000] →
        ∃ v, withClick[k]? = some v ∧ baseline[k]? = some v ∧
          ((MixerEngine.construct Real.sin Real.exp Real.pi (fun _ => 1)).mBgmOn = true →
            ∃ b, tableRead (MixerEngine.construct Real.sin Real.exp Real.pi (fun _ => 1)).mBgm (((MixerEngine.construct Real.sin Real.exp Real.pi (fun _ => 1)).mBgmIndex + (k : Int)) % 48000)
                = some b ∧
              v = Real.tanh (0.8 * 0.005 * b)) ∧
          ((MixerEngine.construct Real.sin Real.exp Real.pi (fun _ => 1)).mBgmOn = false → v = 0)) ∧
      run Real.tanh ⟨true, some (MixerEngine.construct Real.sin Real.exp Real.pi (fun _ => 1))⟩
        [Event.audioReady startedStream (some (fun _ => 0)) 1000,
         Event.audioReady startedStream (some (fun _ => 0)) 2000] = some g1 ∧
      run Real.tanh ⟨false, some { MixerEngine.construct Real.sin Real.exp Real.pi (fun _ => 1) with
          mClickActive := false }⟩
        [Event.audioReady startedStream (some (fun _ => 0)) 1000,
         Event.audioReady startedStream (some (fun _ => 0)) 2000] = some g2 ∧
      g1.gEngine = some e1 ∧ g2.gEngine = some e2 ∧ e1.mBgmIndex = e2.mBgmIndex :=
  click_scenario (MixerEngine.construct Real.sin Real.exp Real.pi (fun _ => 1)) _ (by decide) rfl (by
    intro ev hev
    simp only [List.mem_cons, List.mem_singleton, List.not_mem_nil, or_false] at hev
    cases hev with
    | inl h =>
      rw [h]
      exact ⟨by decide, rfl, by decide⟩
    | inr h =>
      rw [h]
      exact ⟨by decide, rfl, by decide⟩)

end OboeMixer
